import Mathlib

/-!
Verification development for the eve-pi production-plan solver.

The definitions below are a shallow embedding of the Rust sources
(`src/eve-pi/src/domain.rs`, `factory.rs`, `solver.rs`).  Hash-based
containers of the source (`HashSet`, `HashMap`) are modelled as lists
used purely through membership, insertion and removal, with insertion
order standing in for the source's unspecified iteration order; where a
claim depends on that unspecified order, the order is exposed as an
explicit parameter (see `solveOnProducts`).  The character record keeps
only the fields the solver reads (`name`, `planets`).
-/

set_option linter.unusedVariables false

deriving instance DecidableEq for Except

/-- Tier of a product in the production chain (domain.rs, `ProductTier`). -/
inductive ProductTier where
  | P0
  | P1
  | P2
  | P3
  | P4
deriving DecidableEq, Repr

/-- Numeric rank realising the derived `Ord` of the Rust enum (P0 < P1 < P2 < P3 < P4). -/
def ProductTier.rank : ProductTier → Nat
  | .P0 => 0
  | .P1 => 1
  | .P2 => 2
  | .P3 => 3
  | .P4 => 4

/-- Planet categories (domain.rs, `PlanetType`). -/
inductive PlanetType where
  | Barren
  | Gas
  | Ice
  | Lava
  | Oceanic
  | Plasma
  | Storm
  | Temperate
deriving DecidableEq, Repr

/-- A product of the catalog (domain.rs, `Product`). -/
structure Product where
  name : String
  tier : ProductTier
  ingredients : List String
deriving DecidableEq, Repr

/-- A planet record (domain.rs, `Planet`). -/
structure Planet where
  id : String
  planet_type : PlanetType
  resources : List String
deriving DecidableEq, Repr

/-- A character record (domain.rs, `Character`); the solver reads only the
name and the planet capacity, so the skill block is not modelled. -/
structure Character where
  name : String
  planets : Nat
deriving DecidableEq, Repr

/-- A factory configuration (domain.rs, `FactoryConfiguration`). -/
structure FactoryConfiguration where
  start_tier : ProductTier
  end_tier : ProductTier
  imported_inputs : List String
  mined_inputs : List String
  outputs : List String
deriving DecidableEq, Repr

/-- An assignment of a planet to produce a product (domain.rs, `PlanetAssignment`). -/
structure PlanetAssignment where
  character : String
  planet : String
  planet_type : PlanetType
  imported_inputs : List String
  mined_inputs : List String
  output : String
deriving DecidableEq, Repr

/-- A complete production plan (domain.rs, `ProductionPlan`). -/
structure ProductionPlan where
  assignments : List PlanetAssignment
deriving DecidableEq, Repr

/-- Specialized P4 products that require direct P0 mining (domain.rs, `requires_p4_mined`). -/
def requires_p4_mined (product_name : String) : Bool :=
  product_name == "nano_factory" || product_name == "organic_mortar_applicators" ||
    product_name == "sterile_conduit"

/-- Map from each P0 resource to the planet types it can be found on
(domain.rs, `planet_resource_map`). -/
def planet_resource_map (resource : String) : Option (List PlanetType) :=
  if resource == "aqueous_liquids" then some [.Oceanic, .Temperate]
  else if resource == "autotrophs" then some [.Temperate]
  else if resource == "base_metals" then some [.Barren, .Lava, .Plasma]
  else if resource == "carbon_compounds" then some [.Gas, .Temperate]
  else if resource == "complex_organisms" then some [.Temperate]
  else if resource == "felsic_magma" then some [.Lava]
  else if resource == "heavy_metals" then some [.Barren, .Lava, .Plasma]
  else if resource == "ionic_solutions" then some [.Gas, .Storm]
  else if resource == "micro_organisms" then some [.Oceanic, .Temperate]
  else if resource == "noble_gas" then some [.Gas, .Ice]
  else if resource == "noble_metals" then some [.Barren, .Plasma]
  else if resource == "non_cs_crystals" then some [.Ice, .Plasma]
  else if resource == "planktic_colonies" then some [.Oceanic]
  else if resource == "reactive_gas" then some [.Gas, .Storm]
  else if resource == "suspended_plasma" then some [.Gas, .Plasma, .Storm]
  else none

/-- Error type for factory operations (factory.rs, `FactoryError`). -/
inductive FactoryError where
  | ProductNotFound (product : String)
  | InvalidProductTier (product : String) (expected : ProductTier) (actual : ProductTier)
  | MissingIngredients (product : String) (missing : List String)
  | RequiresMining (product : String)
  | DoesNotRequireMining (product : String)
  | NoMinableResource
  | InputOutputMismatch
  | PlanetCannotMine (planet_type : PlanetType) (resource : String)
deriving DecidableEq, Repr

/-- Load-time repository errors (repository.rs, `RepositoryError`). -/
inductive RepositoryError where
  | DeserializationError (msg : String)
  | ProductNotFound (name : String)
  | InvalidData (msg : String)
deriving DecidableEq, Repr

/-- The combined repository interface used by the resolver and the solver
(repository.rs, trait `Repository`).  The two `get_all` vectors carry the
iteration order of the backing hash maps. -/
structure Repository where
  get_product_by_name : String → Option Product
  get_all_planets : List Planet
  get_all_characters : List Character

/-- Insert into a hash-set modelled as a duplicate-free list, keeping
insertion order for the set's unspecified iteration order. -/
def insert_unique (l : List String) (x : String) : List String :=
  if x ∈ l then l else l ++ [x]

/-- Ingredient loop of `factory_type_p2_to_p4_without_mining` (factory.rs
lines 110-125): each direct ingredient must exist and have tier below P4;
the accepted ingredients form the imported set. -/
def check_p4_ingredients (repo : Repository) : List String → List String →
    Except FactoryError (List String)
  | [], acc => .ok acc
  | ingredient :: rest, acc =>
    match repo.get_product_by_name ingredient with
    | none => .error (.ProductNotFound ingredient)
    | some ingredient_product =>
      if ProductTier.P4.rank ≤ ingredient_product.tier.rank then
        .error (.InvalidProductTier ingredient .P3 ingredient_product.tier)
      else
        check_p4_ingredients repo rest (insert_unique acc ingredient)

/-- Strategy 4.1.4, Tier2→Tier4 without extraction (factory.rs,
`factory_type_p2_to_p4_without_mining`). -/
def factory_type_p2_to_p4_without_mining (repo : Repository) (output : String) :
    Except FactoryError FactoryConfiguration :=
  if requires_p4_mined output then .error (.RequiresMining output)
  else
    match repo.get_product_by_name output with
    | none => .error (.ProductNotFound output)
    | some p4_product =>
      if p4_product.tier ≠ .P4 then
        .error (.InvalidProductTier output .P4 p4_product.tier)
      else
        match check_p4_ingredients repo p4_product.ingredients [] with
        | .error e => .error e
        | .ok imported_inputs =>
          .ok ⟨.P2, .P4, imported_inputs, [], [output]⟩

/-- Ingredient collection of `factory_type_p2_to_p4_with_mining` (factory.rs
lines 160-192): direct ingredients must exist and not be P4; their
ingredients and the ingredients of those (when found) are inserted into the
set, three levels deep in all. -/
def collect_p4_inputs (repo : Repository) : List String → List String →
    Except FactoryError (List String)
  | [], acc => .ok acc
  | ingredient :: rest, acc =>
    match repo.get_product_by_name ingredient with
    | none => .error (.ProductNotFound ingredient)
    | some product =>
      let acc := insert_unique acc ingredient
      if product.tier = .P4 then
        .error (.InvalidProductTier ingredient .P3 product.tier)
      else
        let acc := product.ingredients.foldl (fun a sub_ingredient =>
          let a := insert_unique a sub_ingredient
          match repo.get_product_by_name sub_ingredient with
          | some sub_product => sub_product.ingredients.foldl insert_unique a
          | none => a) acc
        collect_p4_inputs repo rest acc

/-- Scan of the collected set for a minable member (factory.rs lines
194-239): the first member that is a catalog P0 product, or a catalog P1
product with a single ingredient that is a catalog P0 product, is returned
together with the P0 resource to mine. -/
def select_minable (repo : Repository) : List String → Option (String × String)
  | [] => none
  | input :: rest =>
    match repo.get_product_by_name input with
    | none => select_minable repo rest
    | some product =>
      if product.tier = .P0 then some (input, input)
      else
        match product.ingredients with
        | [p0_ingredient] =>
          if product.tier = .P1 then
            match repo.get_product_by_name p0_ingredient with
            | some p0_product =>
              if p0_product.tier = .P0 then some (input, p0_ingredient)
              else select_minable repo rest
            | none => select_minable repo rest
          else select_minable repo rest
        | _ => select_minable repo rest

/-- Strategy 4.1.5, Tier2→Tier4 with extraction (factory.rs,
`factory_type_p2_to_p4_with_mining`). -/
def factory_type_p2_to_p4_with_mining (repo : Repository) (output : String) :
    Except FactoryError FactoryConfiguration :=
  match repo.get_product_by_name output with
  | none => .error (.ProductNotFound output)
  | some p4_product =>
    if ¬ requires_p4_mined output then .error (.DoesNotRequireMining output)
    else if p4_product.tier ≠ .P4 then
      .error (.InvalidProductTier output .P4 p4_product.tier)
    else
      match collect_p4_inputs repo p4_product.ingredients [] with
      | .error e => .error e
      | .ok all_inputs =>
        match select_minable repo all_inputs with
        | none => .error .NoMinableResource
        | some (member, mined_input) =>
          .ok ⟨.P2, .P4, all_inputs.filter (fun x => x ≠ member), [mined_input], [output]⟩

/-- First loop of `factory_type_p0_to_p2` (factory.rs lines 262-277): every
ingredient of the P2 product must exist and be a P1 product. -/
def get_p1_ingredients (repo : Repository) : List String → List Product →
    Except FactoryError (List Product)
  | [], acc => .ok acc
  | ingredient :: rest, acc =>
    match repo.get_product_by_name ingredient with
    | none => .error (.ProductNotFound ingredient)
    | some p1_product =>
      if p1_product.tier ≠ .P1 then
        .error (.InvalidProductTier ingredient .P1 p1_product.tier)
      else
        get_p1_ingredients repo rest (acc ++ [p1_product])

/-- Second loop of `factory_type_p0_to_p2` (factory.rs lines 280-296): every
ingredient of every P1 product must exist and be a P0 product; they are
accumulated (as a vector, duplicates kept) as the mined inputs. -/
def collect_p0_inputs (repo : Repository) : List String → List String →
    Except FactoryError (List String)
  | [], acc => .ok acc
  | ingredient :: rest, acc =>
    match repo.get_product_by_name ingredient with
    | none => .error (.ProductNotFound ingredient)
    | some p0_product =>
      if p0_product.tier ≠ .P0 then
        .error (.InvalidProductTier ingredient .P0 p0_product.tier)
      else
        collect_p0_inputs repo rest (acc ++ [ingredient])

/-- Folds `collect_p0_inputs` over the P1 products' ingredient lists. -/
def collect_p0_of_p1_list (repo : Repository) : List Product → List String →
    Except FactoryError (List String)
  | [], acc => .ok acc
  | p1_product :: rest, acc =>
    match collect_p0_inputs repo p1_product.ingredients acc with
    | .error e => .error e
    | .ok acc' => collect_p0_of_p1_list repo rest acc'

/-- Strategy 4.1.3, Tier0→Tier2 direct (factory.rs, `factory_type_p0_to_p2`). -/
def factory_type_p0_to_p2 (repo : Repository) (output : String) :
    Except FactoryError FactoryConfiguration :=
  match repo.get_product_by_name output with
  | none => .error (.ProductNotFound output)
  | some p2_product =>
    if p2_product.tier ≠ .P2 then
      .error (.InvalidProductTier output .P2 p2_product.tier)
    else
      match get_p1_ingredients repo p2_product.ingredients [] with
      | .error e => .error e
      | .ok p1_ingredients =>
        match collect_p0_of_p1_list repo p1_ingredients [] with
        | .error e => .error e
        | .ok mined_inputs =>
          .ok ⟨.P0, .P2, [], mined_inputs, [output]⟩

/-- Import check of `factory_type_p1_to_p2` (factory.rs lines 314-326):
every import must exist and be a P1 product. -/
def check_p1_imports (repo : Repository) : List String → Except FactoryError Unit
  | [] => .ok ()
  | import_name :: rest =>
    match repo.get_product_by_name import_name with
    | none => .error (.ProductNotFound import_name)
    | some import_product =>
      if import_product.tier ≠ .P1 then
        .error (.InvalidProductTier import_name .P1 import_product.tier)
      else check_p1_imports repo rest

/-- Output check of `factory_type_p1_to_p2` (factory.rs lines 331-359):
every output must exist, be a P2 product, and have its ingredient set
covered by the import set; otherwise the uncovered ingredients are
reported.  The set difference of the source is modelled as a filter over
the deduplicated ingredient list. -/
def check_p2_outputs (repo : Repository) (imports : List String) :
    List String → Except FactoryError Unit
  | [] => .ok ()
  | output :: rest =>
    match repo.get_product_by_name output with
    | none => .error (.ProductNotFound output)
    | some product =>
      if product.tier ≠ .P2 then
        .error (.InvalidProductTier output .P2 product.tier)
      else
        let missing := (product.ingredients.dedup).filter (fun i => i ∉ imports)
        if missing = [] then check_p2_outputs repo imports rest
        else .error (.MissingIngredients output missing)

/-- Strategy 4.1.2, Tier1→Tier2 import (factory.rs, `factory_type_p1_to_p2`). -/
def factory_type_p1_to_p2 (repo : Repository) (imports : List String)
    (outputs : List String) : Except FactoryError FactoryConfiguration :=
  match check_p1_imports repo imports with
  | .error e => .error e
  | .ok _ =>
    match check_p2_outputs repo imports outputs with
    | .error e => .error e
    | .ok _ => .ok ⟨.P1, .P2, imports, [], outputs⟩

/-- Whether the mined input and its paired output both resolve in the
catalog with tiers P0 and P1 respectively (the first four checks of the
pair loop in factory.rs lines 382-405). -/
def pair_well_typed (repo : Repository) (mined_input output : String) : Bool :=
  match repo.get_product_by_name mined_input with
  | none => false
  | some p0_product =>
    match repo.get_product_by_name output with
    | none => false
    | some p1_product => p0_product.tier = .P0 && p1_product.tier = .P1

/-- Whether the paired output's ingredient list is exactly the singleton
mined input (the last check of the pair loop, factory.rs line 408). -/
def pair_sole_ingredient (repo : Repository) (mined_input output : String) : Bool :=
  match repo.get_product_by_name output with
  | none => false
  | some p1_product => p1_product.ingredients = [mined_input]

/-- Pair loop of `factory_type_p0_to_p1` (factory.rs lines 382-414). -/
def check_p0_p1_pairs (repo : Repository) : List (String × String) →
    Except FactoryError Unit
  | [] => .ok ()
  | (mined_input, output) :: rest =>
    match repo.get_product_by_name mined_input with
    | none => .error (.ProductNotFound mined_input)
    | some p0_product =>
      if p0_product.tier ≠ .P0 then
        .error (.InvalidProductTier mined_input .P0 p0_product.tier)
      else
        match repo.get_product_by_name output with
        | none => .error (.ProductNotFound output)
        | some p1_product =>
          if p1_product.tier ≠ .P1 then
            .error (.InvalidProductTier output .P1 p1_product.tier)
          else if p1_product.ingredients ≠ [mined_input] then
            .error (.MissingIngredients output [mined_input])
          else check_p0_p1_pairs repo rest

/-- Strategy 4.1.1, Tier0→Tier1 direct extraction (factory.rs,
`factory_type_p0_to_p1`). -/
def factory_type_p0_to_p1 (repo : Repository) (mined_inputs : List String)
    (outputs : List String) : Except FactoryError FactoryConfiguration :=
  if mined_inputs.length ≠ outputs.length then .error .InputOutputMismatch
  else
    match check_p0_p1_pairs repo (mined_inputs.zip outputs) with
    | .error e => .error e
    | .ok _ => .ok ⟨.P0, .P1, [], mined_inputs, outputs⟩

/-- Site-compatibility check (factory.rs, `valid_planet_for_mining`). -/
def valid_planet_for_mining (planet_type : PlanetType) :
    List String → Except FactoryError Unit
  | [] => .ok ()
  | input :: rest =>
    match planet_resource_map input with
    | some valid_planet_types =>
      if planet_type ∈ valid_planet_types then
        valid_planet_for_mining planet_type rest
      else .error (.PlanetCannotMine planet_type input)
    | none => .error (.ProductNotFound input)

/-- Public enumeration of valid factory configurations for a planet type and
target product (factory.rs, `find_valid_factory_configurations`), mirroring
the source's sequence of conditional pushes. -/
def find_valid_factory_configurations (repo : Repository)
    (planet_type : PlanetType) (target_product : String) :
    List FactoryConfiguration :=
  let configurations : List FactoryConfiguration := []
  let configurations :=
    match factory_type_p2_to_p4_without_mining repo target_product with
    | .ok config => configurations ++ [config]
    | .error _ => configurations
  let configurations :=
    match factory_type_p2_to_p4_with_mining repo target_product with
    | .ok config =>
      match valid_planet_for_mining planet_type config.mined_inputs with
      | .ok _ => configurations ++ [config]
      | .error _ => configurations
    | .error _ => configurations
  let configurations :=
    match factory_type_p0_to_p2 repo target_product with
    | .ok config =>
      match valid_planet_for_mining planet_type config.mined_inputs with
      | .ok _ => configurations ++ [config]
      | .error _ => configurations
    | .error _ => configurations
  match repo.get_product_by_name target_product with
  | none => configurations
  | some product =>
    let configurations :=
      if product.tier = .P2 then
        match factory_type_p1_to_p2 repo product.ingredients [target_product] with
        | .ok config => configurations ++ [config]
        | .error _ => configurations
      else configurations
    if product.tier = .P1 then
      match product.ingredients with
      | [p0_ingredient] =>
        match repo.get_product_by_name p0_ingredient with
        | some p0_product =>
          if p0_product.tier = .P0 then
            match valid_planet_for_mining planet_type [p0_ingredient] with
            | .ok _ =>
              match factory_type_p0_to_p1 repo [p0_ingredient] [target_product] with
              | .ok config => configurations ++ [config]
              | .error _ => configurations
            | .error _ => configurations
          else configurations
        | none => configurations
      | _ => configurations
    else configurations

/-- Alias kept by the source (factory.rs, `factory_planet`). -/
def factory_planet (repo : Repository) (planet_type : PlanetType)
    (target_product : String) : List FactoryConfiguration :=
  find_valid_factory_configurations repo planet_type target_product

/-- Error types for solver operations (solver.rs, `SolverError`). -/
inductive SolverError where
  | RepositoryError (e : RepositoryError)
  | ProductNotFound (product : String)
  | NoSolutionFound (msg : String)
deriving DecidableEq, Repr

/-- The mutable search state of the backtracking solver (solver.rs,
`solve_recursive` arguments): the partial assignment vector, the used-site
hash set (as a list), and the character-to-sites hash map (as an
association list). -/
structure SolveState where
  assignments : List PlanetAssignment
  assigned_planets : List String
  character_assignments : List (String × List String)
deriving DecidableEq, Repr

/-- Number of sites a character currently supervises (solver.rs lines
177-180: the map entry's length, or 0 when absent). -/
def charCount : List (String × List String) → String → Nat
  | [], _ => 0
  | entry :: rest, name => if entry.1 = name then entry.2.length else charCount rest name

/-- Record a site under a character (solver.rs lines 226-229,
`entry(...).or_insert_with(Vec::new).push(...)`). -/
def charPush : List (String × List String) → String → String → List (String × List String)
  | [], name, planet_id => [(name, [planet_id])]
  | entry :: rest, name, planet_id =>
    if entry.1 = name then (entry.1, entry.2 ++ [planet_id]) :: rest
    else entry :: charPush rest name planet_id

/-- Undo of `charPush` (solver.rs lines 247-253: pop the character's last
site and drop the entry when it becomes empty). -/
def charPop : List (String × List String) → String → List (String × List String)
  | [], _ => []
  | entry :: rest, name =>
    if entry.1 = name then
      let popped := entry.2.dropLast
      if popped = [] then rest else (entry.1, popped) :: rest
    else entry :: charPop rest name

/-- The import-satisfaction check of the solver (solver.rs lines 186-205).
The source pushes the imported input into a copy of the product list and
then asks whether the copy contains it, so the check never fails. -/
def can_satisfy_inputs (assignments : List PlanetAssignment)
    (products : List String) (imported_inputs : List String) : Bool :=
  imported_inputs.all (fun imported_input =>
    let already_produced := assignments.any (fun a => a.output == imported_input)
    if already_produced then true
    else
      let temp_products :=
        if imported_input ∈ products then products else products ++ [imported_input]
      imported_input ∈ temp_products)

/-- Character loop of the backtracking search (solver.rs lines 175-254):
try each character below its planet limit, tentatively make the
assignment, recurse through `next`, and undo the assignment when the
recursion fails. -/
def tryCharacters (next : SolveState → Bool × SolveState) (planet : Planet)
    (config : FactoryConfiguration) (current_product : String)
    (products : List String) : List Character → SolveState → Bool × SolveState
  | [], s => (false, s)
  | character :: rest, s =>
    if character.planets ≤ charCount s.character_assignments character.name then
      tryCharacters next planet config current_product products rest s
    else if ¬ can_satisfy_inputs s.assignments products config.imported_inputs then
      tryCharacters next planet config current_product products rest s
    else
      let assignment : PlanetAssignment :=
        ⟨character.name, planet.id, planet.planet_type,
          config.imported_inputs, config.mined_inputs, current_product⟩
      let s1 : SolveState :=
        ⟨s.assignments ++ [assignment], planet.id :: s.assigned_planets,
          charPush s.character_assignments character.name planet.id⟩
      let r := next s1
      if r.1 then r
      else
        let s2 := r.2
        let s3 : SolveState :=
          ⟨s2.assignments.dropLast, s2.assigned_planets.erase planet.id,
            charPop s2.character_assignments character.name⟩
        tryCharacters next planet config current_product products rest s3

/-- Configuration loop of the backtracking search (solver.rs lines 173-255). -/
def tryConfigs (repo : Repository) (next : SolveState → Bool × SolveState)
    (planet : Planet) (current_product : String) (products : List String) :
    List FactoryConfiguration → SolveState → Bool × SolveState
  | [], s => (false, s)
  | config :: rest, s =>
    let r := tryCharacters next planet config current_product products
      repo.get_all_characters s
    if r.1 then r
    else tryConfigs repo next planet current_product products rest r.2

/-- Planet loop of the backtracking search (solver.rs lines 160-256): skip
already-used planets, enumerate the planet's configurations, and fall
through to the next planet on failure. -/
def tryPlanets (repo : Repository) (next : SolveState → Bool × SolveState)
    (current_product : String) (products : List String) :
    List Planet → SolveState → Bool × SolveState
  | [], s => (false, s)
  | planet :: rest, s =>
    if planet.id ∈ s.assigned_planets then
      tryPlanets repo next current_product products rest s
    else
      let configs := factory_planet repo planet.planet_type current_product
      let r := tryConfigs repo next planet current_product products configs s
      if r.1 then r
      else tryPlanets repo next current_product products rest r.2

/-- Recursive backtracking solver (solver.rs, `Solver::solve_recursive`).
The index into the product vector is modelled by the remaining suffix of
`products`; `products` itself is the full required vector, consulted by
the import-satisfaction check. -/
def solve_recursive (repo : Repository) (products : List String) :
    List String → SolveState → Bool × SolveState
  | [], s => (true, s)
  | current_product :: remaining, s =>
    if s.assignments.any (fun a => a.output == current_product) then
      solve_recursive repo products remaining s
    else
      tryPlanets repo (fun s' => solve_recursive repo products remaining s')
        current_product products repo.get_all_planets s

/-- The fixed enumeration order of planet types used during closure
computation (solver.rs lines 93-102). -/
def planet_types_order : List PlanetType :=
  [.Barren, .Gas, .Ice, .Lava, .Oceanic, .Plasma, .Storm, .Temperate]

/-- The configuration list of the first planet type that yields a non-empty
list (solver.rs lines 104-116). -/
def firstNonemptyConfigs (repo : Repository) (product_name : String) :
    List PlanetType → List FactoryConfiguration
  | [] => []
  | planet_type :: rest =>
    let configs := factory_planet repo planet_type product_name
    if configs.isEmpty then firstNonemptyConfigs repo product_name rest
    else configs

/-- Folds a collection step over the imported inputs of a configuration
(solver.rs lines 110-113). -/
def collectImports
    (collectNext : String → List String → Option (Except SolverError (List String))) :
    List String → List String → Option (Except SolverError (List String))
  | [], acc => some (.ok acc)
  | imported_input :: rest, acc =>
    match collectNext imported_input acc with
    | none => none
    | some (.error e) => some (.error e)
    | some (.ok acc') => collectImports collectNext rest acc'

/-- Dependency-closure computation (solver.rs,
`Solver::collect_required_products`).  The required hash set is modelled
as an insertion-ordered list; the `Nat` argument is recursion fuel (the
source recursion terminates because the set of catalog names reachable
from the target is finite) and `none` means the fuel ran out. -/
def collect_required_products (repo : Repository) :
    Nat → String → List String → Option (Except SolverError (List String))
  | 0, _, _ => none
  | fuel + 1, product_name, products_to_produce =>
    if product_name ∈ products_to_produce then some (.ok products_to_produce)
    else
      let products_to_produce := products_to_produce ++ [product_name]
      match repo.get_product_by_name product_name with
      | none => some (.error (.ProductNotFound product_name))
      | some _ =>
        match firstNonemptyConfigs repo product_name planet_types_order with
        | [] => some (.error (.NoSolutionFound
            ("No factory configuration found for product: " ++ product_name)))
        | config :: _ =>
          collectImports (collect_required_products repo fuel)
            config.imported_inputs products_to_produce

/-- Phase 2 of the solver run on an explicitly ordered required-product
vector (the source obtains this order by iterating a hash set,
solver.rs line 57). -/
def solveOnProducts (repo : Repository) (products : List String) :
    Bool × SolveState :=
  solve_recursive repo products products ⟨[], [], []⟩

/-- Top-level solve (solver.rs, `Solver::solve`).  Returns `none` when the
closure computation's fuel runs out (which the source excludes by the
finiteness of the catalog). -/
def solve (repo : Repository) (fuel : Nat) (target_product : String) :
    Option (Except SolverError ProductionPlan) :=
  match repo.get_product_by_name target_product with
  | none => some (.error (.ProductNotFound target_product))
  | some _ =>
    match collect_required_products repo fuel target_product [] with
    | none => none
    | some (.error e) => some (.error e)
    | some (.ok products_to_produce) =>
      let r := solveOnProducts repo products_to_produce
      if r.1 then some (.ok ⟨r.2.assignments⟩)
      else some (.error (.NoSolutionFound
          ("Could not find a complete solution for " ++ target_product)))

/-- A character-assignment map never holds an entry with an empty site
list: the solver creates entries non-empty and removes them when their
last site is popped (solver.rs lines 226-229 and 247-253). -/
def EntriesNonempty (m : List (String × List String)) : Prop :=
  ∀ e ∈ m, e.2 ≠ []

instance : DecidablePred EntriesNonempty := fun m =>
  List.decidableBAll _ m

/-- The state invariant maintained by the backtracking search: used-site
marks cover the assignment sites, no site repeats, the character map
counts agree with the assignment vector, and every character of the
repository stays within its planet capacity. -/
def SolveInv (repo : Repository) (s : SolveState) : Prop :=
  (s.assignments.map (fun a => a.planet)).Nodup
  ∧ (∀ a ∈ s.assignments, a.planet ∈ s.assigned_planets)
  ∧ (∀ name, charCount s.character_assignments name =
      (s.assignments.filter (fun a => a.character == name)).length)
  ∧ (∀ c ∈ repo.get_all_characters,
      (s.assignments.filter (fun a => a.character == c.name)).length ≤ c.planets)
  ∧ EntriesNonempty s.character_assignments

/-- The required products not yet covered by the produced outputs. -/
def pendingOutputs (remaining outs : List String) : List String :=
  remaining.filter (fun p => decide (p ∉ outs))

/-- The P0 resource a member of the collected ingredient set would mine,
when it qualifies under the scan of factory.rs lines 195-238: the member
itself when it is a catalog P0 product, or its single ingredient when the
member is a catalog P1 product with exactly one ingredient that is a
catalog P0 product. -/
def minable_member (repo : Repository) (x : String) : Option String :=
  match repo.get_product_by_name x with
  | none => none
  | some product =>
    if product.tier = .P0 then some x
    else
      match product.ingredients with
      | [p0_ingredient] =>
        if product.tier = .P1 then
          match repo.get_product_by_name p0_ingredient with
          | some p0_product => if p0_product.tier = .P0 then some p0_ingredient else none
          | none => none
        else none
      | _ => none

/-- A strategy outcome as a contribution to the enumeration result. -/
def exceptToList (r : Except FactoryError FactoryConfiguration) :
    List FactoryConfiguration :=
  match r with
  | .ok config => [config]
  | .error _ => []

/-- A strategy outcome filtered by the site-compatibility check on its
mined inputs. -/
def compatToList (planet_type : PlanetType)
    (r : Except FactoryError FactoryConfiguration) : List FactoryConfiguration :=
  match r with
  | .ok config =>
    match valid_planet_for_mining planet_type config.mined_inputs with
    | .ok _ => [config]
    | .error _ => []
  | .error _ => []

/-- Modelled from the spec (section 4.1): the enumeration returns every
strategy that both resolves and passes the compatibility check, in the
fixed priority order 4.1.4, 4.1.5, 4.1.3, 4.1.2, 4.1.1, each strategy
failure converted into absence from the result. -/
def configurations_in_priority_order (repo : Repository)
    (planet_type : PlanetType) (target_product : String) :
    List FactoryConfiguration :=
  exceptToList (factory_type_p2_to_p4_without_mining repo target_product)
  ++ compatToList planet_type (factory_type_p2_to_p4_with_mining repo target_product)
  ++ compatToList planet_type (factory_type_p0_to_p2 repo target_product)
  ++ (match repo.get_product_by_name target_product with
      | none => []
      | some product =>
        (if product.tier = .P2 then
          exceptToList (factory_type_p1_to_p2 repo product.ingredients [target_product])
        else [])
        ++ (if product.tier = .P1 then
            match product.ingredients with
            | [p0_ingredient] =>
              match repo.get_product_by_name p0_ingredient with
              | some p0_product =>
                if p0_product.tier = .P0 then
                  match valid_planet_for_mining planet_type [p0_ingredient] with
                  | .ok _ =>
                    exceptToList (factory_type_p0_to_p1 repo [p0_ingredient] [target_product])
                  | .error _ => []
                else []
              | none => []
            | _ => []
          else []))

/-- A one-product repository: water from aqueous liquids, one Oceanic
planet, one character with capacity one. -/
def miniW : Repository :=
  ⟨fun n =>
    if n = "water" then some ⟨"water", .P1, ["aqueous_liquids"]⟩
    else if n = "aqueous_liquids" then some ⟨"aqueous_liquids", .P0, []⟩
    else none,
   [⟨"O1", .Oceanic, []⟩], [⟨"c1", 1⟩]⟩

/-- The same catalog as `miniW` with no planets at all, so the search
always fails. -/
def repoNoPlanets : Repository :=
  ⟨miniW.get_product_by_name, [], [⟨"c1", 1⟩]⟩

/-- A repository whose only planet is gaseous: the closure of
construction_blocks is seeded by the mine-everything configuration found
on a Barren planet type, but the actual assignment must fall back to
the importing strategy, whose inputs nothing in the plan produces. -/
def repoC2 : Repository :=
  ⟨fun n =>
    if n = "construction_blocks" then
      some ⟨"construction_blocks", .P2, ["toxic_metals", "reactive_metals"]⟩
    else if n = "toxic_metals" then some ⟨"toxic_metals", .P1, ["heavy_metals"]⟩
    else if n = "reactive_metals" then some ⟨"reactive_metals", .P1, ["base_metals"]⟩
    else if n = "heavy_metals" then some ⟨"heavy_metals", .P0, []⟩
    else if n = "base_metals" then some ⟨"base_metals", .P0, []⟩
    else none,
   [⟨"Gas1", .Gas, []⟩], [⟨"char1", 1⟩]⟩

/-- The plan the solver returns for construction_blocks on `repoC2`. -/
def c2_plan : ProductionPlan :=
  ⟨[⟨"char1", "Gas1", .Gas, ["toxic_metals", "reactive_metals"], [],
    "construction_blocks"⟩]⟩

/-- A repository in which the extraction strategy's depth-two collection
picks up an ingredient name ("ghost") that is absent from the catalog, so
the closure computation fails with ProductNotFound although the target is
known. -/
def repoC3 : Repository :=
  ⟨fun n =>
    if n = "nano_factory" then some ⟨"nano_factory", .P4, ["aqueous_liquids"]⟩
    else if n = "aqueous_liquids" then some ⟨"aqueous_liquids", .P0, ["ghost"]⟩
    else none,
   [⟨"O1", .Oceanic, []⟩], [⟨"c1", 5⟩]⟩

/-- A repository whose flagged P4 product has a qualifying P1 member at
collection depth three, placed before a P0 member of the collected set;
the P1 member's own P0 ingredient lies below the collection depth. -/
def repoC6 : Repository :=
  ⟨fun n =>
    if n = "nano_factory" then some ⟨"nano_factory", .P4, ["a2", "p0b"]⟩
    else if n = "a2" then some ⟨"a2", .P2, ["b2"]⟩
    else if n = "b2" then some ⟨"b2", .P2, ["p1a"]⟩
    else if n = "p1a" then some ⟨"p1a", .P1, ["r0"]⟩
    else if n = "r0" then some ⟨"r0", .P0, []⟩
    else if n = "p0b" then some ⟨"p0b", .P0, []⟩
    else none,
   [], []⟩

/-- A repository with two Oceanic planets and one Storm planet, used to
show that the plan found depends on the enumeration order of the required
products. -/
def repo9 : Repository :=
  ⟨fun n =>
    if n = "water" then some ⟨"water", .P1, ["aqueous_liquids"]⟩
    else if n = "electrolytes" then some ⟨"electrolytes", .P1, ["ionic_solutions"]⟩
    else if n = "coolant" then some ⟨"coolant", .P2, ["water", "electrolytes"]⟩
    else if n = "aqueous_liquids" then some ⟨"aqueous_liquids", .P0, []⟩
    else if n = "ionic_solutions" then some ⟨"ionic_solutions", .P0, []⟩
    else none,
   [⟨"O1", .Oceanic, []⟩, ⟨"O2", .Oceanic, []⟩, ⟨"S1", .Storm, []⟩], [⟨"char1", 3⟩]⟩

/-- The plan the solver returns for water on `miniW`. -/
def miniW_plan : ProductionPlan :=
  ⟨[⟨"c1", "O1", .Oceanic, [], ["aqueous_liquids"], "water"⟩]⟩

theorem entriesNonempty_nil : EntriesNonempty [] := by
  intro e he
  simp at he

theorem entriesNonempty_charPush (m : List (String × List String)) (name planet_id : String)
    (h : EntriesNonempty m) : EntriesNonempty (charPush m name planet_id) := by
  induction m with
  | nil =>
    intro e he
    simp only [charPush, List.mem_singleton] at he
    simp [he]
  | cons entry rest ih =>
    obtain ⟨k, v⟩ := entry
    have hrest : EntriesNonempty rest := fun x hx => h x (List.mem_cons_of_mem _ hx)
    intro e he
    by_cases hk : k = name
    · simp only [charPush, if_pos hk, List.mem_cons] at he
      rcases he with he | he
      · subst he
        have : v ≠ [] := h (k, v) (List.mem_cons_self _ _)
        simp [this]
      · exact h e (List.mem_cons_of_mem _ he)
    · simp only [charPush, if_neg hk, List.mem_cons] at he
      rcases he with he | he
      · subst he
        exact h (k, v) (List.mem_cons_self _ _)
      · exact ih hrest e he

theorem charPop_charPush (m : List (String × List String)) (name planet_id : String)
    (h : EntriesNonempty m) : charPop (charPush m name planet_id) name = m := by
  induction m with
  | nil => simp [charPush, charPop]
  | cons entry rest ih =>
    obtain ⟨k, v⟩ := entry
    have hrest : EntriesNonempty rest := fun x hx => h x (List.mem_cons_of_mem _ hx)
    by_cases hk : k = name
    · have hne : v ≠ [] := h (k, v) (List.mem_cons_self _ _)
      simp only [charPush, if_pos hk, charPop, List.dropLast_concat]
      simp [hk, hne]
    · simp only [charPush, if_neg hk, charPop, if_neg hk]
      rw [ih hrest]

theorem charCount_charPush_self (m : List (String × List String)) (name planet_id : String) :
    charCount (charPush m name planet_id) name = charCount m name + 1 := by
  induction m with
  | nil => simp [charPush, charCount]
  | cons entry rest ih =>
    obtain ⟨k, v⟩ := entry
    by_cases hk : k = name
    · simp [charPush, if_pos hk, charCount, hk]
    · simp [charPush, if_neg hk, charCount, hk, ih]

theorem charCount_charPush_ne (m : List (String × List String))
    (name planet_id other : String) (h : other ≠ name) :
    charCount (charPush m name planet_id) other = charCount m other := by
  have h' : name ≠ other := fun hh => h hh.symm
  induction m with
  | nil => simp [charPush, charCount, h']
  | cons entry rest ih =>
    obtain ⟨k, v⟩ := entry
    by_cases hk : k = name
    · have hko : k ≠ other := by rw [hk]; exact h'
      simp [charPush, if_pos hk, charCount, hk, h', hko]
    · by_cases ho : k = other
      · simp [charPush, charCount, ho, h, hk]
      · simp [charPush, charCount, ho, hk, ih]

theorem can_satisfy_inputs_eq_true (assignments : List PlanetAssignment)
    (products : List String) (imported_inputs : List String) :
    can_satisfy_inputs assignments products imported_inputs = true := by
  simp only [can_satisfy_inputs, List.all_eq_true]
  intro x hx
  by_cases h : assignments.any (fun a => a.output == x)
  · simp [h]
  · by_cases hp : x ∈ products <;> simp [h, hp]

theorem tryCharacters_fail_restore
    (next : SolveState → Bool × SolveState)
    (hnext : ∀ s, EntriesNonempty s.character_assignments →
      (next s).1 = false → (next s).2 = s)
    (planet : Planet) (config : FactoryConfiguration) (current_product : String)
    (products : List String) :
    ∀ (chars : List Character) (s : SolveState),
      EntriesNonempty s.character_assignments →
      (tryCharacters next planet config current_product products chars s).1 = false →
      (tryCharacters next planet config current_product products chars s).2 = s := by
  intro chars
  induction chars with
  | nil =>
    intro s h hf
    rfl
  | cons character rest ih =>
    intro s h hf
    by_cases h1 : character.planets ≤ charCount s.character_assignments character.name
    · simp only [tryCharacters, if_pos h1] at hf ⊢
      exact ih s h hf
    · have h2 : ¬ ¬ can_satisfy_inputs s.assignments products config.imported_inputs = true := by
        simp [can_satisfy_inputs_eq_true]
      simp only [tryCharacters, if_neg h1, if_neg h2] at hf ⊢
      set s1 : SolveState :=
        ⟨s.assignments ++ [⟨character.name, planet.id, planet.planet_type,
            config.imported_inputs, config.mined_inputs, current_product⟩],
          planet.id :: s.assigned_planets,
          charPush s.character_assignments character.name planet.id⟩ with hs1
      have hs1ne : EntriesNonempty s1.character_assignments := by
        exact entriesNonempty_charPush _ _ _ h
      cases hr : next s1 with
      | mk b s2 =>
        cases b with
        | true =>
          simp only [hr] at hf ⊢
          simp at hf
        | false =>
          have hrec : s2 = s1 := by
            have := hnext s1 hs1ne (by simp [hr])
            simpa [hr] using this
          simp only [hr] at hf ⊢
          simp only [Bool.false_eq_true, if_neg (by simp : ¬ (False : Prop))] at hf ⊢
          have hundo : (⟨s2.assignments.dropLast, s2.assigned_planets.erase planet.id,
              charPop s2.character_assignments character.name⟩ : SolveState) = s := by
            subst hrec
            simp only [hs1]
            rw [List.dropLast_concat, List.erase_cons_head, charPop_charPush _ _ _ h]
          rw [hundo] at hf ⊢
          exact ih s h hf

theorem tryConfigs_fail_restore (repo : Repository)
    (next : SolveState → Bool × SolveState)
    (hnext : ∀ s, EntriesNonempty s.character_assignments →
      (next s).1 = false → (next s).2 = s)
    (planet : Planet) (current_product : String) (products : List String) :
    ∀ (configs : List FactoryConfiguration) (s : SolveState),
      EntriesNonempty s.character_assignments →
      (tryConfigs repo next planet current_product products configs s).1 = false →
      (tryConfigs repo next planet current_product products configs s).2 = s := by
  intro configs
  induction configs with
  | nil =>
    intro s h hf
    rfl
  | cons config rest ih =>
    intro s h hf
    simp only [tryConfigs] at hf ⊢
    cases hr : tryCharacters next planet config current_product products
        repo.get_all_characters s with
    | mk b s2 =>
      cases b with
      | true =>
        simp only [hr] at hf
        simp at hf
      | false =>
        have hrec : s2 = s := by
          have := tryCharacters_fail_restore next hnext planet config current_product
            products repo.get_all_characters s h (by simp [hr])
          simpa [hr] using this
        simp only [hr] at hf ⊢
        simp only [Bool.false_eq_true, if_neg (by simp : ¬ (False : Prop))] at hf ⊢
        rw [hrec] at hf ⊢
        exact ih s h hf

theorem tryPlanets_fail_restore (repo : Repository)
    (next : SolveState → Bool × SolveState)
    (hnext : ∀ s, EntriesNonempty s.character_assignments →
      (next s).1 = false → (next s).2 = s)
    (current_product : String) (products : List String) :
    ∀ (planets : List Planet) (s : SolveState),
      EntriesNonempty s.character_assignments →
      (tryPlanets repo next current_product products planets s).1 = false →
      (tryPlanets repo next current_product products planets s).2 = s := by
  intro planets
  induction planets with
  | nil =>
    intro s h hf
    rfl
  | cons planet rest ih =>
    intro s h hf
    by_cases hmem : planet.id ∈ s.assigned_planets
    · simp only [tryPlanets, if_pos hmem] at hf ⊢
      exact ih s h hf
    · simp only [tryPlanets, if_neg hmem] at hf ⊢
      cases hr : tryConfigs repo next planet current_product products
          (factory_planet repo planet.planet_type current_product) s with
      | mk b s2 =>
        cases b with
        | true =>
          simp only [hr] at hf
          simp at hf
        | false =>
          have hrec : s2 = s := by
            have := tryConfigs_fail_restore repo next hnext planet current_product
              products (factory_planet repo planet.planet_type current_product) s h
              (by simp [hr])
            simpa [hr] using this
          simp only [hr] at hf ⊢
          simp only [Bool.false_eq_true, if_neg (by simp : ¬ (False : Prop))] at hf ⊢
          rw [hrec] at hf ⊢
          exact ih s h hf

theorem solve_recursive_fail_restore (repo : Repository) (products : List String) :
    ∀ (remaining : List String) (s : SolveState),
      EntriesNonempty s.character_assignments →
      (solve_recursive repo products remaining s).1 = false →
      (solve_recursive repo products remaining s).2 = s := by
  intro remaining
  induction remaining with
  | nil =>
    intro s h hf
    simp [solve_recursive] at hf
  | cons current_product rest ih =>
    intro s h hf
    by_cases hskip : s.assignments.any (fun a => a.output == current_product) = true
    · simp only [solve_recursive, if_pos hskip] at hf ⊢
      exact ih s h hf
    · simp only [solve_recursive, if_neg hskip] at hf ⊢
      exact tryPlanets_fail_restore repo _ (fun s' h' hf' => ih s' h' hf')
        current_product products repo.get_all_planets s h hf

theorem pendingOutputs_cons_mem (current : String) (rem outs : List String)
    (h : current ∈ outs) :
    pendingOutputs (current :: rem) outs = pendingOutputs rem outs := by
  simp [pendingOutputs, h]

theorem pendingOutputs_cons_not_mem (current : String) (rem outs : List String)
    (h : current ∉ outs) :
    pendingOutputs (current :: rem) outs = current :: pendingOutputs rem outs := by
  simp [pendingOutputs, h]

theorem pendingOutputs_shift (current : String) (rem outs : List String)
    (h : current ∉ rem) :
    pendingOutputs rem (outs ++ [current]) = pendingOutputs rem outs := by
  unfold pendingOutputs
  apply List.filter_congr
  intro x hx
  have hxc : x ≠ current := fun hh => h (hh ▸ hx)
  simp [List.mem_append, hxc]

theorem any_output_iff (l : List PlanetAssignment) (current : String) :
    l.any (fun a => a.output == current) = true ↔
      current ∈ l.map (fun a => a.output) := by
  simp only [List.any_eq_true, List.mem_map, beq_iff_eq]

theorem tryCharacters_success_outputs
    (next : SolveState → Bool × SolveState) (rem : List String)
    (hrestore : ∀ s, EntriesNonempty s.character_assignments →
      (next s).1 = false → (next s).2 = s)
    (hout : ∀ s, EntriesNonempty s.character_assignments → (next s).1 = true →
      (next s).2.assignments.map (fun a => a.output) =
        s.assignments.map (fun a => a.output) ++
          pendingOutputs rem (s.assignments.map (fun a => a.output)))
    (planet : Planet) (config : FactoryConfiguration) (current_product : String)
    (products : List String) :
    ∀ (chars : List Character) (s : SolveState),
      EntriesNonempty s.character_assignments →
      (tryCharacters next planet config current_product products chars s).1 = true →
      (tryCharacters next planet config current_product products chars s).2.assignments.map
          (fun a => a.output) =
        (s.assignments.map (fun a => a.output) ++ [current_product]) ++
          pendingOutputs rem (s.assignments.map (fun a => a.output) ++ [current_product]) := by
  intro chars
  induction chars with
  | nil =>
    intro s h hsucc
    simp [tryCharacters] at hsucc
  | cons character rest ih =>
    intro s h hsucc
    by_cases h1 : character.planets ≤ charCount s.character_assignments character.name
    · simp only [tryCharacters, if_pos h1] at hsucc ⊢
      exact ih s h hsucc
    · have h2 : ¬ ¬ can_satisfy_inputs s.assignments products config.imported_inputs = true := by
        simp [can_satisfy_inputs_eq_true]
      simp only [tryCharacters, if_neg h1, if_neg h2] at hsucc ⊢
      set s1 : SolveState :=
        ⟨s.assignments ++ [⟨character.name, planet.id, planet.planet_type,
            config.imported_inputs, config.mined_inputs, current_product⟩],
          planet.id :: s.assigned_planets,
          charPush s.character_assignments character.name planet.id⟩ with hs1
      have hs1ne : EntriesNonempty s1.character_assignments :=
        entriesNonempty_charPush _ _ _ h
      have hs1out : s1.assignments.map (fun a => a.output) =
          s.assignments.map (fun a => a.output) ++ [current_product] := by
        simp [hs1]
      cases hr : next s1 with
      | mk b s2 =>
        cases b with
        | true =>
          simp only [hr] at hsucc ⊢
          simp only [if_pos (by simp : (True : Prop))]
          have := hout s1 hs1ne (by simp [hr])
          rw [hr] at this
          simpa [hs1out] using this
        | false =>
          have hrec : s2 = s1 := by
            have := hrestore s1 hs1ne (by simp [hr])
            simpa [hr] using this
          simp only [hr] at hsucc ⊢
          simp only [Bool.false_eq_true, if_neg (by simp : ¬ (False : Prop))] at hsucc ⊢
          have hundo : (⟨s2.assignments.dropLast, s2.assigned_planets.erase planet.id,
              charPop s2.character_assignments character.name⟩ : SolveState) = s := by
            rw [hrec]
            simp only [hs1]
            rw [List.dropLast_concat, List.erase_cons_head, charPop_charPush _ _ _ h]
          rw [hundo] at hsucc ⊢
          exact ih s h hsucc

theorem tryConfigs_success_outputs (repo : Repository)
    (next : SolveState → Bool × SolveState) (rem : List String)
    (hrestore : ∀ s, EntriesNonempty s.character_assignments →
      (next s).1 = false → (next s).2 = s)
    (hout : ∀ s, EntriesNonempty s.character_assignments → (next s).1 = true →
      (next s).2.assignments.map (fun a => a.output) =
        s.assignments.map (fun a => a.output) ++
          pendingOutputs rem (s.assignments.map (fun a => a.output)))
    (planet : Planet) (current_product : String) (products : List String) :
    ∀ (configs : List FactoryConfiguration) (s : SolveState),
      EntriesNonempty s.character_assignments →
      (tryConfigs repo next planet current_product products configs s).1 = true →
      (tryConfigs repo next planet current_product products configs s).2.assignments.map
          (fun a => a.output) =
        (s.assignments.map (fun a => a.output) ++ [current_product]) ++
          pendingOutputs rem (s.assignments.map (fun a => a.output) ++ [current_product]) := by
  intro configs
  induction configs with
  | nil =>
    intro s h hsucc
    simp [tryConfigs] at hsucc
  | cons config rest ih =>
    intro s h hsucc
    simp only [tryConfigs] at hsucc ⊢
    cases hr : tryCharacters next planet config current_product products
        repo.get_all_characters s with
    | mk b s2 =>
      cases b with
      | true =>
        simp only [hr] at hsucc ⊢
        simp only [if_pos (by simp : (True : Prop))]
        have := tryCharacters_success_outputs next rem hrestore hout planet config
          current_product products repo.get_all_characters s h (by simp [hr])
        rw [hr] at this
        exact this
      | false =>
        have hrec : s2 = s := by
          have := tryCharacters_fail_restore next hrestore planet config current_product
            products repo.get_all_characters s h (by simp [hr])
          simpa [hr] using this
        simp only [hr] at hsucc ⊢
        simp only [Bool.false_eq_true, if_neg (by simp : ¬ (False : Prop))] at hsucc ⊢
        rw [hrec] at hsucc ⊢
        exact ih s h hsucc

theorem tryPlanets_success_outputs (repo : Repository)
    (next : SolveState → Bool × SolveState) (rem : List String)
    (hrestore : ∀ s, EntriesNonempty s.character_assignments →
      (next s).1 = false → (next s).2 = s)
    (hout : ∀ s, EntriesNonempty s.character_assignments → (next s).1 = true →
      (next s).2.assignments.map (fun a => a.output) =
        s.assignments.map (fun a => a.output) ++
          pendingOutputs rem (s.assignments.map (fun a => a.output)))
    (current_product : String) (products : List String) :
    ∀ (planets : List Planet) (s : SolveState),
      EntriesNonempty s.character_assignments →
      (tryPlanets repo next current_product products planets s).1 = true →
      (tryPlanets repo next current_product products planets s).2.assignments.map
          (fun a => a.output) =
        (s.assignments.map (fun a => a.output) ++ [current_product]) ++
          pendingOutputs rem (s.assignments.map (fun a => a.output) ++ [current_product]) := by
  intro planets
  induction planets with
  | nil =>
    intro s h hsucc
    simp [tryPlanets] at hsucc
  | cons planet rest ih =>
    intro s h hsucc
    by_cases hmem : planet.id ∈ s.assigned_planets
    · simp only [tryPlanets, if_pos hmem] at hsucc ⊢
      exact ih s h hsucc
    · simp only [tryPlanets, if_neg hmem] at hsucc ⊢
      cases hr : tryConfigs repo next planet current_product products
          (factory_planet repo planet.planet_type current_product) s with
      | mk b s2 =>
        cases b with
        | true =>
          simp only [hr] at hsucc ⊢
          simp only [if_pos (by simp : (True : Prop))]
          have := tryConfigs_success_outputs repo next rem hrestore hout planet
            current_product products
            (factory_planet repo planet.planet_type current_product) s h (by simp [hr])
          rw [hr] at this
          exact this
        | false =>
          have hrec : s2 = s := by
            have := tryConfigs_fail_restore repo next hrestore planet current_product
              products (factory_planet repo planet.planet_type current_product) s h
              (by simp [hr])
            simpa [hr] using this
          simp only [hr] at hsucc ⊢
          simp only [Bool.false_eq_true, if_neg (by simp : ¬ (False : Prop))] at hsucc ⊢
          rw [hrec] at hsucc ⊢
          exact ih s h hsucc

theorem solve_recursive_outputs (repo : Repository) (products : List String) :
    ∀ (remaining : List String) (s : SolveState), remaining.Nodup →
      EntriesNonempty s.character_assignments →
      (solve_recursive repo products remaining s).1 = true →
      (solve_recursive repo products remaining s).2.assignments.map (fun a => a.output) =
        s.assignments.map (fun a => a.output) ++
          pendingOutputs remaining (s.assignments.map (fun a => a.output)) := by
  intro remaining
  induction remaining with
  | nil =>
    intro s hnodup h hsucc
    simp [solve_recursive, pendingOutputs]
  | cons current_product rest ih =>
    intro s hnodup h hsucc
    have hrest_nodup : rest.Nodup := hnodup.of_cons
    have hhead : current_product ∉ rest := by
      intro hmem
      exact (List.nodup_cons.mp hnodup).1 hmem
    by_cases hskip : s.assignments.any (fun a => a.output == current_product) = true
    · have hmem : current_product ∈ s.assignments.map (fun a => a.output) :=
        (any_output_iff _ _).mp hskip
      simp only [solve_recursive, if_pos hskip] at hsucc ⊢
      rw [ih s hrest_nodup h hsucc, pendingOutputs_cons_mem _ _ _ hmem]
    · have hmem : current_product ∉ s.assignments.map (fun a => a.output) := by
        intro hmem
        exact hskip ((any_output_iff _ _).mpr hmem)
      simp only [solve_recursive, if_neg hskip] at hsucc ⊢
      have := tryPlanets_success_outputs repo
        (fun s' => solve_recursive repo products rest s') rest
        (fun s' h' hf' => solve_recursive_fail_restore repo products rest s' h' hf')
        (fun s' h' ht' => ih s' hrest_nodup h' ht')
        current_product products repo.get_all_planets s h hsucc
      rw [this, pendingOutputs_shift _ _ _ hhead,
        pendingOutputs_cons_not_mem _ _ _ hmem, List.append_assoc]
      rfl

theorem solveInv_push (repo : Repository) (s : SolveState) (character : Character)
    (planet : Planet) (config : FactoryConfiguration) (current_product : String)
    (hnames : (repo.get_all_characters.map (fun c => c.name)).Nodup)
    (hc : character ∈ repo.get_all_characters)
    (hinv : SolveInv repo s)
    (hcap : ¬ character.planets ≤ charCount s.character_assignments character.name)
    (hplanet : planet.id ∉ s.assigned_planets) :
    SolveInv repo
      ⟨s.assignments ++ [⟨character.name, planet.id, planet.planet_type,
          config.imported_inputs, config.mined_inputs, current_product⟩],
        planet.id :: s.assigned_planets,
        charPush s.character_assignments character.name planet.id⟩ := by
  obtain ⟨hnodup, hmarked, hcounts, hcapinv, hne⟩ := hinv
  refine ⟨?_, ?_, ?_, ?_, ?_⟩
  · simp only [List.map_append, List.map_cons, List.map_nil]
    rw [List.nodup_append]
    refine ⟨hnodup, List.nodup_singleton _, ?_⟩
    intro x hx hx'
    simp only [List.mem_singleton] at hx'
    subst hx'
    obtain ⟨a, ha, heq⟩ := List.mem_map.mp hx
    exact hplanet (heq ▸ hmarked a ha)
  · intro a ha
    rcases List.mem_append.mp ha with ha | ha
    · exact List.mem_cons_of_mem _ (hmarked a ha)
    · simp only [List.mem_singleton] at ha
      subst ha
      exact List.mem_cons_self _ _
  · intro name
    simp only [List.filter_append, List.length_append]
    by_cases hn : character.name = name
    · subst hn
      rw [charCount_charPush_self, hcounts]
      simp
    · rw [charCount_charPush_ne _ _ _ _ (fun hh => hn hh.symm), hcounts]
      have hb : (character.name == name) = false := by
        simp [hn]
      simp [List.filter_cons, hb]
  · intro c' hc'
    simp only [List.filter_append, List.length_append]
    by_cases h' : character.name = c'.name
    · have hcc : character = c' := List.inj_on_of_nodup_map hnames hc hc' h'
      subst hcc
      have hlt : (s.assignments.filter (fun x => x.character == character.name)).length
          < character.planets := by
        have := hcounts character.name
        omega
      simp only [List.filter_cons, List.filter_nil]
      simp only [beq_self_eq_true, if_true, List.length_cons, List.length_nil]
      omega
    · have hle := hcapinv c' hc'
      have hb : (character.name == c'.name) = false := by
        simp [h']
      simp [List.filter_cons, hb]
      omega
  · exact entriesNonempty_charPush _ _ _ hne

theorem tryCharacters_success_inv (repo : Repository)
    (next : SolveState → Bool × SolveState)
    (hnames : (repo.get_all_characters.map (fun c => c.name)).Nodup)
    (hrestore : ∀ s, EntriesNonempty s.character_assignments →
      (next s).1 = false → (next s).2 = s)
    (hinv_next : ∀ s, SolveInv repo s → (next s).1 = true → SolveInv repo (next s).2)
    (planet : Planet) (config : FactoryConfiguration) (current_product : String)
    (products : List String) :
    ∀ (chars : List Character) (s : SolveState),
      (∀ c ∈ chars, c ∈ repo.get_all_characters) →
      SolveInv repo s → planet.id ∉ s.assigned_planets →
      (tryCharacters next planet config current_product products chars s).1 = true →
      SolveInv repo (tryCharacters next planet config current_product products chars s).2 := by
  intro chars
  induction chars with
  | nil =>
    intro s hsub hinv hplanet hsucc
    simp [tryCharacters] at hsucc
  | cons character rest ih =>
    intro s hsub hinv hplanet hsucc
    have hne : EntriesNonempty s.character_assignments := hinv.2.2.2.2
    have hsub' : ∀ c ∈ rest, c ∈ repo.get_all_characters :=
      fun c hcmem => hsub c (List.mem_cons_of_mem _ hcmem)
    by_cases h1 : character.planets ≤ charCount s.character_assignments character.name
    · simp only [tryCharacters, if_pos h1] at hsucc ⊢
      exact ih s hsub' hinv hplanet hsucc
    · have h2 : ¬ ¬ can_satisfy_inputs s.assignments products config.imported_inputs = true := by
        simp [can_satisfy_inputs_eq_true]
      simp only [tryCharacters, if_neg h1, if_neg h2] at hsucc ⊢
      set s1 : SolveState :=
        ⟨s.assignments ++ [⟨character.name, planet.id, planet.planet_type,
            config.imported_inputs, config.mined_inputs, current_product⟩],
          planet.id :: s.assigned_planets,
          charPush s.character_assignments character.name planet.id⟩ with hs1
      have hinv1 : SolveInv repo s1 :=
        solveInv_push repo s character planet config current_product hnames
          (hsub character (List.mem_cons_self _ _)) hinv h1 hplanet
      have hs1ne : EntriesNonempty s1.character_assignments :=
        entriesNonempty_charPush _ _ _ hne
      cases hr : next s1 with
      | mk b s2 =>
        cases b with
        | true =>
          simp only [hr] at hsucc ⊢
          simp only [if_pos (by simp : (True : Prop))]
          have := hinv_next s1 hinv1 (by simp [hr])
          rw [hr] at this
          exact this
        | false =>
          have hrec : s2 = s1 := by
            have := hrestore s1 hs1ne (by simp [hr])
            simpa [hr] using this
          simp only [hr] at hsucc ⊢
          simp only [Bool.false_eq_true, if_neg (by simp : ¬ (False : Prop))] at hsucc ⊢
          have hundo : (⟨s2.assignments.dropLast, s2.assigned_planets.erase planet.id,
              charPop s2.character_assignments character.name⟩ : SolveState) = s := by
            rw [hrec]
            simp only [hs1]
            rw [List.dropLast_concat, List.erase_cons_head, charPop_charPush _ _ _ hne]
          rw [hundo] at hsucc ⊢
          exact ih s hsub' hinv hplanet hsucc

theorem tryConfigs_success_inv (repo : Repository)
    (next : SolveState → Bool × SolveState)
    (hnames : (repo.get_all_characters.map (fun c => c.name)).Nodup)
    (hrestore : ∀ s, EntriesNonempty s.character_assignments →
      (next s).1 = false → (next s).2 = s)
    (hinv_next : ∀ s, SolveInv repo s → (next s).1 = true → SolveInv repo (next s).2)
    (planet : Planet) (current_product : String) (products : List String) :
    ∀ (configs : List FactoryConfiguration) (s : SolveState),
      SolveInv repo s → planet.id ∉ s.assigned_planets →
      (tryConfigs repo next planet current_product products configs s).1 = true →
      SolveInv repo (tryConfigs repo next planet current_product products configs s).2 := by
  intro configs
  induction configs with
  | nil =>
    intro s hinv hplanet hsucc
    simp [tryConfigs] at hsucc
  | cons config rest ih =>
    intro s hinv hplanet hsucc
    have hne : EntriesNonempty s.character_assignments := hinv.2.2.2.2
    simp only [tryConfigs] at hsucc ⊢
    cases hr : tryCharacters next planet config current_product products
        repo.get_all_characters s with
    | mk b s2 =>
      cases b with
      | true =>
        simp only [hr] at hsucc ⊢
        simp only [if_pos (by simp : (True : Prop))]
        have := tryCharacters_success_inv repo next hnames hrestore hinv_next planet
          config current_product products repo.get_all_characters s
          (fun c hcmem => hcmem) hinv hplanet (by simp [hr])
        rw [hr] at this
        exact this
      | false =>
        have hrec : s2 = s := by
          have := tryCharacters_fail_restore next hrestore planet config current_product
            products repo.get_all_characters s hne (by simp [hr])
          simpa [hr] using this
        simp only [hr] at hsucc ⊢
        simp only [Bool.false_eq_true, if_neg (by simp : ¬ (False : Prop))] at hsucc ⊢
        rw [hrec] at hsucc ⊢
        exact ih s hinv hplanet hsucc

theorem tryPlanets_success_inv (repo : Repository)
    (next : SolveState → Bool × SolveState)
    (hnames : (repo.get_all_characters.map (fun c => c.name)).Nodup)
    (hrestore : ∀ s, EntriesNonempty s.character_assignments →
      (next s).1 = false → (next s).2 = s)
    (hinv_next : ∀ s, SolveInv repo s → (next s).1 = true → SolveInv repo (next s).2)
    (current_product : String) (products : List String) :
    ∀ (planets : List Planet) (s : SolveState),
      SolveInv repo s →
      (tryPlanets repo next current_product products planets s).1 = true →
      SolveInv repo (tryPlanets repo next current_product products planets s).2 := by
  intro planets
  induction planets with
  | nil =>
    intro s hinv hsucc
    simp [tryPlanets] at hsucc
  | cons planet rest ih =>
    intro s hinv hsucc
    have hne : EntriesNonempty s.character_assignments := hinv.2.2.2.2
    by_cases hmem : planet.id ∈ s.assigned_planets
    · simp only [tryPlanets, if_pos hmem] at hsucc ⊢
      exact ih s hinv hsucc
    · simp only [tryPlanets, if_neg hmem] at hsucc ⊢
      cases hr : tryConfigs repo next planet current_product products
          (factory_planet repo planet.planet_type current_product) s with
      | mk b s2 =>
        cases b with
        | true =>
          simp only [hr] at hsucc ⊢
          simp only [if_pos (by simp : (True : Prop))]
          have := tryConfigs_success_inv repo next hnames hrestore hinv_next planet
            current_product products
            (factory_planet repo planet.planet_type current_product) s hinv hmem
            (by simp [hr])
          rw [hr] at this
          exact this
        | false =>
          have hrec : s2 = s := by
            have := tryConfigs_fail_restore repo next hrestore planet current_product
              products (factory_planet repo planet.planet_type current_product) s hne
              (by simp [hr])
            simpa [hr] using this
          simp only [hr] at hsucc ⊢
          simp only [Bool.false_eq_true, if_neg (by simp : ¬ (False : Prop))] at hsucc ⊢
          rw [hrec] at hsucc ⊢
          exact ih s hinv hsucc

theorem solve_recursive_inv (repo : Repository) (products : List String)
    (hnames : (repo.get_all_characters.map (fun c => c.name)).Nodup) :
    ∀ (remaining : List String) (s : SolveState),
      SolveInv repo s →
      (solve_recursive repo products remaining s).1 = true →
      SolveInv repo (solve_recursive repo products remaining s).2 := by
  intro remaining
  induction remaining with
  | nil =>
    intro s hinv hsucc
    simpa [solve_recursive] using hinv
  | cons current_product rest ih =>
    intro s hinv hsucc
    by_cases hskip : s.assignments.any (fun a => a.output == current_product) = true
    · simp only [solve_recursive, if_pos hskip] at hsucc ⊢
      exact ih s hinv hsucc
    · simp only [solve_recursive, if_neg hskip] at hsucc ⊢
      exact tryPlanets_success_inv repo
        (fun s' => solve_recursive repo products rest s') hnames
        (fun s' h' hf' => solve_recursive_fail_restore repo products rest s' h' hf')
        (fun s' hinv' ht' => ih s' hinv' ht')
        current_product products repo.get_all_planets s hinv hsucc

theorem collectImports_pres
    (collectNext : String → List String → Option (Except SolverError (List String)))
    (h : ∀ name acc r, acc.Nodup → collectNext name acc = some (.ok r) →
      r.Nodup ∧ acc <+: r) :
    ∀ (imports : List String) (acc r : List String), acc.Nodup →
      collectImports collectNext imports acc = some (.ok r) →
      r.Nodup ∧ acc <+: r := by
  intro imports
  induction imports with
  | nil =>
    intro acc r hnodup heq
    simp only [collectImports, Option.some.injEq, Except.ok.injEq] at heq
    subst heq
    exact ⟨hnodup, List.prefix_refl _⟩
  | cons imported_input rest ih =>
    intro acc r hnodup heq
    simp only [collectImports] at heq
    cases hc : collectNext imported_input acc with
    | none => rw [hc] at heq; exact absurd heq (by simp)
    | some res =>
      cases res with
      | error e => rw [hc] at heq; exact absurd heq (by simp)
      | ok acc' =>
        rw [hc] at heq
        obtain ⟨hn', hp'⟩ := h imported_input acc acc' hnodup hc
        obtain ⟨hn'', hp''⟩ := ih acc' r hn' heq
        exact ⟨hn'', hp'.trans hp''⟩

theorem collect_required_pres (repo : Repository) :
    ∀ (fuel : Nat) (product_name : String) (acc r : List String), acc.Nodup →
      collect_required_products repo fuel product_name acc = some (.ok r) →
      r.Nodup ∧ acc <+: r := by
  intro fuel
  induction fuel with
  | zero =>
    intro name acc r hnodup heq
    exact absurd heq (by simp [collect_required_products])
  | succ fuel ih =>
    intro name acc r hnodup heq
    by_cases hmem : name ∈ acc
    · simp only [collect_required_products, if_pos hmem, Option.some.injEq,
        Except.ok.injEq] at heq
      subst heq
      exact ⟨hnodup, List.prefix_refl _⟩
    · simp only [collect_required_products, if_neg hmem] at heq
      have hnodup1 : (acc ++ [name]).Nodup := by
        rw [List.nodup_append]
        refine ⟨hnodup, List.nodup_singleton _, ?_⟩
        intro x hx hx'
        simp only [List.mem_singleton] at hx'
        subst hx'
        exact hmem hx
      have hpre1 : acc <+: acc ++ [name] := ⟨[name], rfl⟩
      cases hg : repo.get_product_by_name name with
      | none => rw [hg] at heq; exact absurd heq (by simp)
      | some product =>
        rw [hg] at heq
        cases hf : firstNonemptyConfigs repo name planet_types_order with
        | nil => rw [hf] at heq; exact absurd heq (by simp)
        | cons config configs =>
          rw [hf] at heq
          obtain ⟨hn', hp'⟩ := collectImports_pres (collect_required_products repo fuel)
            (fun n a rr ha hh => ih n a rr ha hh) config.imported_inputs
            (acc ++ [name]) r hnodup1 heq
          exact ⟨hn', hpre1.trans hp'⟩

theorem collectImports_no_repo_error
    (collectNext : String → List String → Option (Except SolverError (List String)))
    (h : ∀ name acc e, collectNext name acc = some (.error e) →
      ∀ re, e ≠ .RepositoryError re) :
    ∀ (imports : List String) (acc : List String) (e : SolverError),
      collectImports collectNext imports acc = some (.error e) →
      ∀ re, e ≠ .RepositoryError re := by
  intro imports
  induction imports with
  | nil =>
    intro acc e heq
    exact absurd heq (by simp [collectImports])
  | cons imported_input rest ih =>
    intro acc e heq
    simp only [collectImports] at heq
    cases hc : collectNext imported_input acc with
    | none => rw [hc] at heq; exact absurd heq (by simp)
    | some res =>
      cases res with
      | error e' =>
        rw [hc] at heq
        simp only [Option.some.injEq, Except.error.injEq] at heq
        exact heq ▸ h imported_input acc e' hc
      | ok acc' =>
        rw [hc] at heq
        exact ih acc' e heq

theorem collect_no_repo_error (repo : Repository) :
    ∀ (fuel : Nat) (product_name : String) (acc : List String) (e : SolverError),
      collect_required_products repo fuel product_name acc = some (.error e) →
      ∀ re, e ≠ .RepositoryError re := by
  intro fuel
  induction fuel with
  | zero =>
    intro name acc e heq
    exact absurd heq (by simp [collect_required_products])
  | succ fuel ih =>
    intro name acc e heq
    by_cases hmem : name ∈ acc
    · exact absurd heq (by simp [collect_required_products, hmem])
    · simp only [collect_required_products, if_neg hmem] at heq
      cases hg : repo.get_product_by_name name with
      | none =>
        rw [hg] at heq
        simp only [Option.some.injEq, Except.error.injEq] at heq
        subst heq
        intro re hre
        exact absurd hre (by simp)
      | some product =>
        rw [hg] at heq
        cases hf : firstNonemptyConfigs repo name planet_types_order with
        | nil =>
          rw [hf] at heq
          simp only [Option.some.injEq, Except.error.injEq] at heq
          subst heq
          intro re hre
          exact absurd hre (by simp)
        | cons config configs =>
          rw [hf] at heq
          exact collectImports_no_repo_error (collect_required_products repo fuel)
            (fun n a ee hh => ih n a ee hh) config.imported_inputs
            (acc ++ [name]) e heq

theorem pendingOutputs_empty_outs (l : List String) : pendingOutputs l [] = l := by
  simp [pendingOutputs]

theorem solveInv_empty (repo : Repository) : SolveInv repo ⟨[], [], []⟩ := by
  refine ⟨by simp, by simp, ?_, ?_, entriesNonempty_nil⟩
  · intro name
    simp [charCount]
  · intro c hc
    simp

theorem collect_target_mem (repo : Repository) (fuel : Nat) (target : String)
    (req : List String)
    (h : collect_required_products repo fuel target [] = some (.ok req)) :
    target ∈ req := by
  cases fuel with
  | zero => exact absurd h (by simp [collect_required_products])
  | succ fuel =>
    simp only [collect_required_products, if_neg (by simp : ¬ target ∈ ([] : List String)),
      List.nil_append] at h
    cases hg : repo.get_product_by_name target with
    | none => rw [hg] at h; exact absurd h (by simp)
    | some product =>
      rw [hg] at h
      cases hf : firstNonemptyConfigs repo target planet_types_order with
      | nil => rw [hf] at h; exact absurd h (by simp)
      | cons config configs =>
        rw [hf] at h
        obtain ⟨hn, hp⟩ := collectImports_pres (collect_required_products repo fuel)
          (fun n a rr ha hh => collect_required_pres repo fuel n a rr ha hh)
          config.imported_inputs [target] req (List.nodup_singleton _) h
        exact hp.subset (List.mem_singleton_self _)

theorem solve_ok_destruct (repo : Repository) (fuel : Nat) (target : String)
    (plan : ProductionPlan) (h : solve repo fuel target = some (.ok plan)) :
    ∃ req, collect_required_products repo fuel target [] = some (.ok req) ∧
      req.Nodup ∧ target ∈ req ∧
      (solveOnProducts repo req).1 = true ∧
      plan.assignments = (solveOnProducts repo req).2.assignments := by
  unfold solve at h
  cases hg : repo.get_product_by_name target with
  | none => rw [hg] at h; exact absurd h (by simp)
  | some product =>
    cases hc : collect_required_products repo fuel target [] with
    | none => simp [hg, hc] at h
    | some res =>
      cases res with
      | error e => simp [hg, hc] at h
      | ok req =>
        simp only [hg, hc] at h
        split at h
        case isTrue hr =>
          simp only [Option.some.injEq, Except.ok.injEq] at h
          obtain ⟨hnodup, _⟩ := collect_required_pres repo fuel target [] req
            List.nodup_nil hc
          exact ⟨req, rfl, hnodup, collect_target_mem repo fuel target req hc, hr,
            by rw [← h]⟩
        case isFalse hr =>
          exact absurd h (by simp)

theorem solve_ok_outputs (repo : Repository) (fuel : Nat) (target : String)
    (plan : ProductionPlan) (h : solve repo fuel target = some (.ok plan)) :
    ∃ req, collect_required_products repo fuel target [] = some (.ok req) ∧
      req.Nodup ∧ target ∈ req ∧
      plan.assignments.map (fun a => a.output) = req := by
  obtain ⟨req, hc, hnodup, hmem, hr, hplan⟩ := solve_ok_destruct repo fuel target plan h
  refine ⟨req, hc, hnodup, hmem, ?_⟩
  rw [hplan]
  have := solve_recursive_outputs repo req req ⟨[], [], []⟩ hnodup
    entriesNonempty_nil hr
  simpa [solveOnProducts, pendingOutputs_empty_outs] using this

/-- Claim C8: whenever the backtracking search fails, every tentative
mutation is undone exactly, so after `solve_recursive` returns false the
partial-assignment list, the used-site set and the operator-to-sites map
equal their values on entry.  The hypothesis restricts the entry state to
the map shapes the solver actually builds (entries are never empty), which
holds of every state reachable from the initial empty state. -/
theorem claim_C8_backtracking_restores_state (repo : Repository)
    (products remaining : List String) (s : SolveState)
    (h : EntriesNonempty s.character_assignments)
    (hfail : (solve_recursive repo products remaining s).1 = false) :
    (solve_recursive repo products remaining s).2 = s :=
  solve_recursive_fail_restore repo products remaining s h hfail

theorem claim_C8_witness :
    EntriesNonempty (⟨[], [], []⟩ : SolveState).character_assignments ∧
    (solve_recursive repoNoPlanets ["water"] ["water"] ⟨[], [], []⟩).1 = false ∧
    (solve_recursive repoNoPlanets ["water"] ["water"] ⟨[], [], []⟩).2 = ⟨[], [], []⟩ :=
  ⟨by decide, by decide,
    claim_C8_backtracking_restores_state repoNoPlanets ["water"] ["water"]
      ⟨[], [], []⟩ (by decide) (by decide)⟩

/-- Claim C1: in every plan returned by `solve`, no planet identifier
appears in more than one assignment, and every character of the repository
supervises no more assignments than its declared planet capacity.  The
hypothesis that character names are pairwise distinct reflects the source
repository, which keys characters by name in a hash map. -/
theorem claim_C1_site_and_capacity (repo : Repository) (fuel : Nat)
    (target : String) (plan : ProductionPlan)
    (hnames : (repo.get_all_characters.map (fun c => c.name)).Nodup)
    (h : solve repo fuel target = some (.ok plan)) :
    (plan.assignments.map (fun a => a.planet)).Nodup ∧
    ∀ c ∈ repo.get_all_characters,
      (plan.assignments.filter (fun a => a.character == c.name)).length ≤ c.planets := by
  obtain ⟨req, hc, hnodup, hmem, hr, hplan⟩ := solve_ok_destruct repo fuel target plan h
  have hinv : SolveInv repo (solveOnProducts repo req).2 := by
    have := solve_recursive_inv repo req hnames req ⟨[], [], []⟩
      (solveInv_empty repo) hr
    simpa [solveOnProducts] using this
  rw [hplan]
  exact ⟨hinv.1, hinv.2.2.2.1⟩

theorem claim_C1_witness :
    ((miniW.get_all_characters.map (fun c => c.name)).Nodup ∧
      solve miniW 10 "water" = some (.ok miniW_plan)) ∧
    ((miniW_plan.assignments.map (fun a => a.planet)).Nodup ∧
      ∀ c ∈ miniW.get_all_characters,
        (miniW_plan.assignments.filter (fun a => a.character == c.name)).length ≤
          c.planets) :=
  ⟨⟨by decide, by decide⟩,
    claim_C1_site_and_capacity miniW 10 "water" miniW_plan (by decide) (by decide)⟩

/-- Claim C10: in every plan returned by `solve`, the outputs of the
assignments are exactly the computed required-set, in order and without
repetition, so no two assignments share an output, every required product
(the target included) is the output of exactly one assignment, and the
plan's length equals the required-set's size. -/
theorem claim_C10_outputs_are_required_set (repo : Repository) (fuel : Nat)
    (target : String) (plan : ProductionPlan)
    (h : solve repo fuel target = some (.ok plan)) :
    ∃ req, collect_required_products repo fuel target [] = some (.ok req) ∧
      plan.assignments.map (fun a => a.output) = req ∧
      (plan.assignments.map (fun a => a.output)).Nodup ∧
      target ∈ req ∧
      plan.assignments.length = req.length := by
  obtain ⟨req, hc, hnodup, hmem, houts⟩ := solve_ok_outputs repo fuel target plan h
  refine ⟨req, hc, houts, ?_, hmem, ?_⟩
  · rw [houts]
    exact hnodup
  · rw [← houts, List.length_map]

theorem claim_C10_witness :
    solve miniW 10 "water" = some (.ok miniW_plan) ∧
    ∃ req, collect_required_products miniW 10 "water" [] = some (.ok req) ∧
      miniW_plan.assignments.map (fun a => a.output) = req ∧
      (miniW_plan.assignments.map (fun a => a.output)).Nodup ∧
      "water" ∈ req ∧
      miniW_plan.assignments.length = req.length :=
  ⟨by decide,
    claim_C10_outputs_are_required_set miniW 10 "water" miniW_plan (by decide)⟩

/-- Claim C2 counterexample: on `repoC2` the solver returns a plan whose
single assignment imports toxic_metals and reactive_metals, yet no
assignment of the plan outputs either of them, because the solver's
check on imported inputs never rejects a candidate. -/
theorem claim_C2_counterexample :
    solve repoC2 10 "construction_blocks" = some (.ok c2_plan) ∧
    c2_plan.assignments.any
      (fun a => a.imported_inputs.contains "toxic_metals") = true ∧
    c2_plan.assignments.all (fun a => a.output != "toxic_metals") = true := by
  refine ⟨by decide, by decide, by decide⟩

/-- Claim C2, amended: every assignment's output is the product its
position of the required-set demands (the plan's outputs are exactly the
required-set), but imported ingredients are not guaranteed to be the
output of any assignment: the solver's import-satisfaction check accepts
every candidate unconditionally. -/
theorem claim_C2_amended (repo : Repository) (fuel : Nat) (target : String)
    (plan : ProductionPlan) :
    (∀ (assignments : List PlanetAssignment) (products imported_inputs : List String),
      can_satisfy_inputs assignments products imported_inputs = true) ∧
    (solve repo fuel target = some (.ok plan) →
      ∃ req, collect_required_products repo fuel target [] = some (.ok req) ∧
        plan.assignments.map (fun a => a.output) = req) := by
  refine ⟨can_satisfy_inputs_eq_true, ?_⟩
  intro h
  obtain ⟨req, hc, _, _, houts⟩ := solve_ok_outputs repo fuel target plan h
  exact ⟨req, hc, houts⟩

theorem claim_C2_amended_witness :
    solve miniW 10 "water" = some (.ok miniW_plan) ∧
    (can_satisfy_inputs [] ["water"] ["coolant"] = true ∧
      ∃ req, collect_required_products miniW 10 "water" [] = some (.ok req) ∧
        miniW_plan.assignments.map (fun a => a.output) = req) :=
  ⟨by decide,
    (claim_C2_amended miniW 10 "water" miniW_plan).1 [] ["water"] ["coolant"],
    (claim_C2_amended miniW 10 "water" miniW_plan).2 (by decide)⟩

/-- Claim C3 counterexample: on `repoC3` the target nano_factory is known
to the catalog, yet `solve` returns neither a plan nor NoSolutionFound but
ProductNotFound for the dangling dependency name picked up by the
extraction strategy's ingredient collection. -/
theorem claim_C3_counterexample :
    (repoC3.get_product_by_name "nano_factory").isSome = true ∧
    solve repoC3 10 "nano_factory" =
      some (.error (.ProductNotFound "ghost")) := by
  refine ⟨by decide, by decide⟩

/-- Claim C3, amended: `solve` returns ProductNotFound for an unknown
target; otherwise it returns a complete plan (its outputs are exactly the
required-set), a NoSolutionFound error, or a ProductNotFound error naming
a missing dependency met during closure computation; it never returns a
partial plan and never a RepositoryError. -/
theorem claim_C3_amended (repo : Repository) (fuel : Nat) (target : String)
    (r : Except SolverError ProductionPlan)
    (h : solve repo fuel target = some r) :
    (repo.get_product_by_name target = none →
      r = .error (.ProductNotFound target)) ∧
    (∀ re, r ≠ .error (.RepositoryError re)) ∧
    (∀ plan, r = .ok plan →
      ∃ req, collect_required_products repo fuel target [] = some (.ok req) ∧
        req.Nodup ∧ target ∈ req ∧
        plan.assignments.map (fun a => a.output) = req) := by
  refine ⟨?_, ?_, ?_⟩
  · intro hg
    unfold solve at h
    rw [hg] at h
    simp only [Option.some.injEq] at h
    exact h.symm
  · intro re hre
    subst hre
    unfold solve at h
    cases hg : repo.get_product_by_name target with
    | none =>
      rw [hg] at h
      simp at h
    | some product =>
      cases hc : collect_required_products repo fuel target [] with
      | none => simp [hg, hc] at h
      | some res =>
        cases res with
        | error e =>
          simp only [hg, hc, Option.some.injEq] at h
          have := collect_no_repo_error repo fuel target [] e hc re
          simp only [Except.error.injEq] at h
          exact this h
        | ok req =>
          simp only [hg, hc] at h
          split at h
          · simp at h
          · simp at h
  · intro plan hplan
    subst hplan
    obtain ⟨req, hc, hnodup, hmem, houts⟩ := solve_ok_outputs repo fuel target plan h
    exact ⟨req, hc, hnodup, hmem, houts⟩

theorem claim_C3_amended_witness :
    solve miniW 10 "water" = some (.ok miniW_plan) ∧
    ((miniW.get_product_by_name "water" = none →
        (Except.ok miniW_plan : Except SolverError ProductionPlan) =
          .error (.ProductNotFound "water")) ∧
      (∀ re, (Except.ok miniW_plan : Except SolverError ProductionPlan) ≠
        .error (.RepositoryError re)) ∧
      (∀ plan, (Except.ok miniW_plan : Except SolverError ProductionPlan) = .ok plan →
        ∃ req, collect_required_products miniW 10 "water" [] = some (.ok req) ∧
          req.Nodup ∧ "water" ∈ req ∧
          plan.assignments.map (fun a => a.output) = req)) :=
  ⟨by decide, claim_C3_amended miniW 10 "water" (.ok miniW_plan) (by decide)⟩

theorem valid_single_eq (t : PlanetType) (r : String) :
    valid_planet_for_mining t [r] =
      (match planet_resource_map r with
        | none => .error (.ProductNotFound r)
        | some l => if t ∈ l then .ok () else .error (.PlanetCannotMine t r)) := by
  cases hm : planet_resource_map r with
  | none => simp [valid_planet_for_mining, hm]
  | some l => by_cases ht : t ∈ l <;> simp [valid_planet_for_mining, hm, ht]

/-- Claim C5: for every raw-resource identifier and planet type, the
site-compatibility check on the singleton list succeeds exactly when the
resource's entry in the catalog's resource table lists the planet type;
it fails with PlanetCannotMine when the entry exists but omits the type,
and with ProductNotFound when the resource has no entry. -/
theorem claim_C5_site_compatibility (t : PlanetType) (r : String) :
    (valid_planet_for_mining t [r] = .ok () ↔
      ∃ l, planet_resource_map r = some l ∧ t ∈ l) ∧
    (∀ l, planet_resource_map r = some l → t ∉ l →
      valid_planet_for_mining t [r] = .error (.PlanetCannotMine t r)) ∧
    (planet_resource_map r = none →
      valid_planet_for_mining t [r] = .error (.ProductNotFound r)) := by
  have hv := valid_single_eq t r
  cases hm : planet_resource_map r with
  | none =>
    rw [hm] at hv
    refine ⟨?_, ?_, ?_⟩
    · rw [hv]
      constructor
      · intro hh
        exact absurd hh (by simp)
      · rintro ⟨l, hl, _⟩
        exact absurd hl (by simp)
    · intro l hl
      exact absurd hl (by simp)
    · intro _
      exact hv
  | some l =>
    rw [hm] at hv
    by_cases ht : t ∈ l
    · refine ⟨?_, ?_, ?_⟩
      · rw [hv]
        dsimp only
        rw [if_pos ht]
        constructor
        · intro _
          exact ⟨l, rfl, ht⟩
        · intro _
          rfl
      · intro l' hl' hnot
        simp only [Option.some.injEq] at hl'
        subst hl'
        exact absurd ht hnot
      · intro hnone
        exact absurd hnone (by simp)
    · refine ⟨?_, ?_, ?_⟩
      · rw [hv]
        dsimp only
        rw [if_neg ht]
        constructor
        · intro hh
          exact absurd hh (by simp)
        · rintro ⟨l', hl', ht'⟩
          simp only [Option.some.injEq] at hl'
          subst hl'
          exact absurd ht' ht
      · intro l' hl' hnot
        simp only [Option.some.injEq] at hl'
        subst hl'
        rw [hv]
        dsimp only
        rw [if_neg ht]
      · intro hnone
        exact absurd hnone (by simp)

theorem claim_C5_witness :
    (valid_planet_for_mining .Oceanic ["aqueous_liquids"] = .ok ()) ∧
    (valid_planet_for_mining .Barren ["aqueous_liquids"] =
      .error (.PlanetCannotMine .Barren "aqueous_liquids")) ∧
    (valid_planet_for_mining .Gas ["unobtainium"] =
      .error (.ProductNotFound "unobtainium")) :=
  ⟨((claim_C5_site_compatibility .Oceanic "aqueous_liquids").1).mpr
      ⟨[.Oceanic, .Temperate], by decide, by decide⟩,
    (claim_C5_site_compatibility .Barren "aqueous_liquids").2.1
      [.Oceanic, .Temperate] (by decide) (by decide),
    (claim_C5_site_compatibility .Gas "unobtainium").2.2 (by decide)⟩

theorem check_pairs_all_ok (repo : Repository) :
    ∀ pairs : List (String × String),
      (∀ pr ∈ pairs, pair_well_typed repo pr.1 pr.2 = true ∧
        pair_sole_ingredient repo pr.1 pr.2 = true) →
      check_p0_p1_pairs repo pairs = .ok () := by
  intro pairs
  induction pairs with
  | nil => intro _; rfl
  | cons pr rest ih =>
    obtain ⟨m, o⟩ := pr
    intro h
    obtain ⟨h1, h2⟩ := h (m, o) (List.mem_cons_self _ _)
    simp only [pair_well_typed] at h1
    cases hgm : repo.get_product_by_name m with
    | none => rw [hgm] at h1; exact absurd h1 (by simp)
    | some p0 =>
      rw [hgm] at h1
      cases hgo : repo.get_product_by_name o with
      | none => rw [hgo] at h1; exact absurd h1 (by simp)
      | some p1 =>
        rw [hgo] at h1
        simp only [Bool.and_eq_true, decide_eq_true_eq] at h1
        obtain ⟨ht0, ht1⟩ := h1
        simp only [pair_sole_ingredient, hgo, decide_eq_true_eq] at h2
        simp only [check_p0_p1_pairs, hgm, hgo]
        rw [if_neg (show ¬ p0.tier ≠ ProductTier.P0 from fun hh => hh ht0),
          if_neg (show ¬ p1.tier ≠ ProductTier.P1 from fun hh => hh ht1),
          if_neg (show ¬ p1.ingredients ≠ [m] from fun hh => hh h2)]
        exact ih (fun x hx => h x (List.mem_cons_of_mem _ hx))

theorem check_pairs_missing (repo : Repository) :
    ∀ pairs : List (String × String),
      (∀ pr ∈ pairs, pair_well_typed repo pr.1 pr.2 = true) →
      (∃ pr ∈ pairs, pair_sole_ingredient repo pr.1 pr.2 = false) →
      ∃ pr ∈ pairs, pair_sole_ingredient repo pr.1 pr.2 = false ∧
        check_p0_p1_pairs repo pairs = .error (.MissingIngredients pr.2 [pr.1]) := by
  intro pairs
  induction pairs with
  | nil =>
    intro _ hex
    simp at hex
  | cons pr rest ih =>
    obtain ⟨m, o⟩ := pr
    intro hwt hex
    have h1 := hwt (m, o) (List.mem_cons_self _ _)
    simp only [pair_well_typed] at h1
    cases hgm : repo.get_product_by_name m with
    | none => rw [hgm] at h1; exact absurd h1 (by simp)
    | some p0 =>
      rw [hgm] at h1
      cases hgo : repo.get_product_by_name o with
      | none => rw [hgo] at h1; exact absurd h1 (by simp)
      | some p1 =>
        rw [hgo] at h1
        simp only [Bool.and_eq_true, decide_eq_true_eq] at h1
        obtain ⟨ht0, ht1⟩ := h1
        by_cases hsole : p1.ingredients = [m]
        · have hhead : pair_sole_ingredient repo m o = true := by
            simp [pair_sole_ingredient, hgo, hsole]
          have hex' : ∃ pr ∈ rest, pair_sole_ingredient repo pr.1 pr.2 = false := by
            rcases hex with ⟨pr', hpr', hf'⟩
            rcases List.mem_cons.mp hpr' with hh | hh
            · subst hh
              rw [hhead] at hf'
              exact absurd hf' (by simp)
            · exact ⟨pr', hh, hf'⟩
          obtain ⟨pr', hmem', hf', heq'⟩ :=
            ih (fun x hx => hwt x (List.mem_cons_of_mem _ hx)) hex'
          refine ⟨pr', List.mem_cons_of_mem _ hmem', hf', ?_⟩
          simp only [check_p0_p1_pairs, hgm, hgo]
          rw [if_neg (show ¬ p0.tier ≠ ProductTier.P0 from fun hh => hh ht0),
            if_neg (show ¬ p1.tier ≠ ProductTier.P1 from fun hh => hh ht1),
            if_neg (show ¬ p1.ingredients ≠ [m] from fun hh => hh hsole)]
          exact heq'
        · refine ⟨(m, o), List.mem_cons_self _ _, ?_, ?_⟩
          · simp [pair_sole_ingredient, hgo, hsole]
          · simp only [check_p0_p1_pairs, hgm, hgo]
            rw [if_neg (show ¬ p0.tier ≠ ProductTier.P0 from fun hh => hh ht0),
              if_neg (show ¬ p1.tier ≠ ProductTier.P1 from fun hh => hh ht1),
              if_pos (show p1.ingredients ≠ [m] from hsole)]

/-- Claim C7: the Tier0→Tier1 strategy fails with InputOutputMismatch on
mismatched list lengths; with equal lengths and every pair resolving to a
catalog P0 input and P1 output, it fails with MissingIngredients for a
pair whose output's ingredient list is not exactly the paired input, and
succeeds with the given resources mined and nothing imported when every
output's single ingredient is exactly its paired input. -/
theorem claim_C7_p0_to_p1 (repo : Repository) (mined_inputs outputs : List String) :
    (mined_inputs.length ≠ outputs.length →
      factory_type_p0_to_p1 repo mined_inputs outputs = .error .InputOutputMismatch) ∧
    (mined_inputs.length = outputs.length →
      (∀ pr ∈ mined_inputs.zip outputs, pair_well_typed repo pr.1 pr.2 = true) →
      ((∀ pr ∈ mined_inputs.zip outputs, pair_sole_ingredient repo pr.1 pr.2 = true) →
        factory_type_p0_to_p1 repo mined_inputs outputs =
          .ok ⟨.P0, .P1, [], mined_inputs, outputs⟩) ∧
      ((∃ pr ∈ mined_inputs.zip outputs, pair_sole_ingredient repo pr.1 pr.2 = false) →
        ∃ pr ∈ mined_inputs.zip outputs, pair_sole_ingredient repo pr.1 pr.2 = false ∧
          factory_type_p0_to_p1 repo mined_inputs outputs =
            .error (.MissingIngredients pr.2 [pr.1]))) := by
  constructor
  · intro hlen
    simp [factory_type_p0_to_p1, hlen]
  · intro hlen hwt
    constructor
    · intro hsole
      have := check_pairs_all_ok repo (mined_inputs.zip outputs)
        (fun pr hpr => ⟨hwt pr hpr, hsole pr hpr⟩)
      simp [factory_type_p0_to_p1, hlen, this]
    · intro hex
      obtain ⟨pr, hmem, hf, heq⟩ := check_pairs_missing repo
        (mined_inputs.zip outputs) hwt hex
      refine ⟨pr, hmem, hf, ?_⟩
      simp [factory_type_p0_to_p1, hlen, heq]

theorem claim_C7_witness :
    (factory_type_p0_to_p1 miniW ["aqueous_liquids"] [] =
      .error .InputOutputMismatch) ∧
    (factory_type_p0_to_p1 miniW ["aqueous_liquids"] ["water"] =
      .ok ⟨.P0, .P1, [], ["aqueous_liquids"], ["water"]⟩) :=
  ⟨(claim_C7_p0_to_p1 miniW ["aqueous_liquids"] []).1 (by decide),
    ((claim_C7_p0_to_p1 miniW ["aqueous_liquids"] ["water"]).2 (by decide)
      (by decide)).1 (by decide)⟩

/-- Claim C4: the public enumeration never errors (its type is a plain
list), and it equals the concatenation, in the fixed strategy-priority
order 4.1.4, 4.1.5, 4.1.3, 4.1.2, 4.1.1, of the per-strategy outcomes,
each resolution failure and each failed compatibility check contributing
the empty list; in particular an empty result is an ordinary value. -/
theorem claim_C4_enumeration_priority_order (repo : Repository)
    (planet_type : PlanetType) (target_product : String) :
    find_valid_factory_configurations repo planet_type target_product =
      configurations_in_priority_order repo planet_type target_product := by
  unfold find_valid_factory_configurations configurations_in_priority_order
  simp only [exceptToList, compatToList]
  repeat' split
  all_goals simp_all

theorem select_minable_cons (repo : Repository) (input : String) (rest : List String) :
    select_minable repo (input :: rest) =
      (match minable_member repo input with
        | some r => some (input, r)
        | none => select_minable repo rest) := by
  cases hg : repo.get_product_by_name input with
  | none => simp [select_minable, minable_member, hg]
  | some product =>
    by_cases h0 : product.tier = ProductTier.P0
    · simp [select_minable, minable_member, hg, h0]
    · cases hing : product.ingredients with
      | nil => simp [select_minable, minable_member, hg, h0, hing]
      | cons i irest =>
        cases irest with
        | nil =>
          by_cases h1 : product.tier = ProductTier.P1
          · cases hsg : repo.get_product_by_name i with
            | none => simp [select_minable, minable_member, hg, h0, hing, h1, hsg]
            | some p0p =>
              by_cases hp0 : p0p.tier = ProductTier.P0
              · simp [select_minable, minable_member, hg, h0, hing, h1, hsg, hp0]
              · simp [select_minable, minable_member, hg, h0, hing, h1, hsg, hp0]
          · simp [select_minable, minable_member, hg, h0, hing, h1]
        | cons i2 irest2 => simp [select_minable, minable_member, hg, h0, hing]

theorem select_minable_none_iff (repo : Repository) :
    ∀ l : List String, select_minable repo l = none ↔
      ∀ x ∈ l, minable_member repo x = none := by
  intro l
  induction l with
  | nil => simp [select_minable]
  | cons input rest ih =>
    rw [select_minable_cons]
    cases hm : minable_member repo input with
    | none =>
      dsimp only
      constructor
      · intro hrest x hx
        rcases List.mem_cons.mp hx with hh | hh
        · subst hh
          exact hm
        · exact (ih.mp hrest) x hh
      · intro hall
        exact ih.mpr (fun x hx => hall x (List.mem_cons_of_mem _ hx))
    | some r =>
      dsimp only
      constructor
      · intro hh
        exact absurd hh (by simp)
      · intro hall
        have := hall input (List.mem_cons_self _ _)
        rw [hm] at this
        exact absurd this (by simp)

theorem select_minable_some_mem (repo : Repository) :
    ∀ (l : List String) (m resource : String),
      select_minable repo l = some (m, resource) →
      m ∈ l ∧ minable_member repo m = some resource := by
  intro l
  induction l with
  | nil =>
    intro m resource h
    exact absurd h (by simp [select_minable])
  | cons input rest ih =>
    intro m resource h
    rw [select_minable_cons] at h
    cases hm : minable_member repo input with
    | none =>
      rw [hm] at h
      obtain ⟨hmem, hq⟩ := ih m resource h
      exact ⟨List.mem_cons_of_mem _ hmem, hq⟩
    | some r =>
      rw [hm] at h
      simp only [Option.some.injEq, Prod.mk.injEq] at h
      obtain ⟨heq1, heq2⟩ := h
      subst heq1
      subst heq2
      exact ⟨List.mem_cons_self _ _, hm⟩

/-- Claim C6, amended: the extraction strategy applies only to
extraction-flagged products (failing with DoesNotRequireMining otherwise);
from the set collected three levels down the ingredient chain it selects
the first member, in the set's iteration order and with no preference of
P0 over P1, that is either a catalog P0 product or a catalog P1 product
with a single P0 ingredient; the single mined input is that member's P0
resource (the member itself, or its single ingredient, which may lie
outside the collected set), the other collected members are imported, and
NoMinableResource is returned exactly when no member of the collected set
qualifies. -/
theorem claim_C6_amended (repo : Repository) (output : String) :
    (∀ p4_product, repo.get_product_by_name output = some p4_product →
      requires_p4_mined output = false →
      factory_type_p2_to_p4_with_mining repo output =
        .error (.DoesNotRequireMining output)) ∧
    (∀ p4_product all_inputs,
      repo.get_product_by_name output = some p4_product →
      requires_p4_mined output = true →
      p4_product.tier = .P4 →
      collect_p4_inputs repo p4_product.ingredients [] = .ok all_inputs →
      (((∀ x ∈ all_inputs, minable_member repo x = none) →
          factory_type_p2_to_p4_with_mining repo output = .error .NoMinableResource) ∧
        (∀ cfg, factory_type_p2_to_p4_with_mining repo output = .ok cfg →
          ∃ member resource, member ∈ all_inputs ∧
            minable_member repo member = some resource ∧
            cfg = ⟨.P2, .P4, all_inputs.filter (fun x => x ≠ member),
              [resource], [output]⟩) ∧
        ((∃ x ∈ all_inputs, minable_member repo x ≠ none) →
          ∃ cfg, factory_type_p2_to_p4_with_mining repo output = .ok cfg))) := by
  constructor
  · intro p4_product hg hflag
    simp [factory_type_p2_to_p4_with_mining, hg, hflag]
  · intro p4_product all_inputs hg hflag htier hcollect
    have hbase : factory_type_p2_to_p4_with_mining repo output =
        (match select_minable repo all_inputs with
          | none => .error .NoMinableResource
          | some (member, mined_input) =>
            .ok ⟨.P2, .P4, all_inputs.filter (fun x => x ≠ member),
              [mined_input], [output]⟩) := by
      simp [factory_type_p2_to_p4_with_mining, hg, hflag, htier, hcollect]
    refine ⟨?_, ?_, ?_⟩
    · intro hall
      rw [hbase, (select_minable_none_iff repo all_inputs).mpr hall]
    · intro cfg hcfg
      rw [hbase] at hcfg
      cases hs : select_minable repo all_inputs with
      | none =>
        rw [hs] at hcfg
        exact absurd hcfg (by simp)
      | some pair =>
        obtain ⟨member, resource⟩ := pair
        rw [hs] at hcfg
        simp only [Except.ok.injEq] at hcfg
        obtain ⟨hmem, hq⟩ := select_minable_some_mem repo all_inputs member resource hs
        exact ⟨member, resource, hmem, hq, hcfg.symm⟩
    · intro hex
      cases hs : select_minable repo all_inputs with
      | none =>
        obtain ⟨x, hx, hne⟩ := hex
        exact absurd ((select_minable_none_iff repo all_inputs).mp hs x hx) hne
      | some pair =>
        obtain ⟨member, resource⟩ := pair
        rw [hbase, hs]
        exact ⟨_, rfl⟩

/-- Claim C6 counterexample: on `repoC6` the collected set is
a2, b2, p1a, p0b; it contains the tier-P0 member p0b, yet the strategy
mines r0, the single ingredient of the earlier P1 member p1a, and r0 is
not even a member of the collected set; the P0 member is imported
instead of mined, refuting both the P0-first preference and the claim
that the mined input is a member of the collected set. -/
theorem claim_C6_counterexample :
    requires_p4_mined "nano_factory" = true ∧
    collect_p4_inputs repoC6 ["a2", "p0b"] [] =
      .ok ["a2", "b2", "p1a", "p0b"] ∧
    (repoC6.get_product_by_name "p0b").map (fun p => p.tier) = some .P0 ∧
    "p0b" ∈ ["a2", "b2", "p1a", "p0b"] ∧
    factory_type_p2_to_p4_with_mining repoC6 "nano_factory" =
      .ok ⟨.P2, .P4, ["a2", "b2", "p0b"], ["r0"], ["nano_factory"]⟩ ∧
    "r0" ∉ ["a2", "b2", "p1a", "p0b"] := by
  refine ⟨by decide, by decide, by decide, by decide, by decide, by decide⟩

theorem claim_C6_amended_witness :
    (repoC6.get_product_by_name "nano_factory" =
      some ⟨"nano_factory", .P4, ["a2", "p0b"]⟩ ∧
     factory_type_p2_to_p4_with_mining repoC6 "nano_factory" =
      .ok ⟨.P2, .P4, ["a2", "b2", "p0b"], ["r0"], ["nano_factory"]⟩) ∧
    ∃ member resource, member ∈ ["a2", "b2", "p1a", "p0b"] ∧
      minable_member repoC6 member = some resource ∧
      (⟨.P2, .P4, ["a2", "b2", "p0b"], ["r0"], ["nano_factory"]⟩ :
          FactoryConfiguration) =
        ⟨.P2, .P4, (["a2", "b2", "p1a", "p0b"] : List String).filter
            (fun x => x ≠ member), [resource], ["nano_factory"]⟩ :=
  ⟨⟨by decide, by decide⟩,
    ((claim_C6_amended repoC6 "nano_factory").2
      ⟨"nano_factory", .P4, ["a2", "p0b"]⟩ ["a2", "b2", "p1a", "p0b"]
      (by decide) (by decide) (by decide) (by decide)).2.1
      ⟨.P2, .P4, ["a2", "b2", "p0b"], ["r0"], ["nano_factory"]⟩ (by decide)⟩

/-- Claim C9 counterexample: on `repo9` the same required-product set,
presented in two orders a hash-set iteration may produce, yields plans
that assign water to different planets, although no product in the set is
extraction-flagged, so no section-4.1 mined-resource tie-break is
involved; the plans differ with the iteration order of the required set,
not only with that tie-break. -/
theorem claim_C9_counterexample :
    (["water", "electrolytes", "coolant"] : List String).Perm
      ["coolant", "water", "electrolytes"] ∧
    (solveOnProducts repo9 ["water", "electrolytes", "coolant"]).1 = true ∧
    (solveOnProducts repo9 ["coolant", "water", "electrolytes"]).1 = true ∧
    ((solveOnProducts repo9 ["water", "electrolytes", "coolant"]).2.assignments.map
        (fun a => (a.output, a.planet))).contains ("water", "O1") = true ∧
    ((solveOnProducts repo9 ["coolant", "water", "electrolytes"]).2.assignments.map
        (fun a => (a.output, a.planet))).contains ("water", "O1") = false ∧
    (["water", "electrolytes", "coolant"] : List String).all
      (fun p => !requires_p4_mined p) = true := by
  refine ⟨by decide, by decide, by decide, by decide, by decide, by decide⟩

/-- Claim C9, amended: the search is a deterministic function of its
inputs together with the iteration orders of the hash containers (the
required-product set and the repository maps); two runs over permuted
required-product orders need not bind the same sites and operators --
any of these unordered iterations, not only the section-4.1 tie-break,
may change the plan -- but both plans produce exactly the same set of
products, one assignment per required product. -/
theorem claim_C9_amended (repo : Repository) (order1 order2 : List String)
    (hperm : order1.Perm order2) (hnodup : order1.Nodup)
    (h1 : (solveOnProducts repo order1).1 = true)
    (h2 : (solveOnProducts repo order2).1 = true) :
    ((solveOnProducts repo order1).2.assignments.map (fun a => a.output)).Perm
      ((solveOnProducts repo order2).2.assignments.map (fun a => a.output)) := by
  have hnodup2 : order2.Nodup := hperm.nodup_iff.mp hnodup
  have e1 := solve_recursive_outputs repo order1 order1 ⟨[], [], []⟩ hnodup
    entriesNonempty_nil h1
  have e2 := solve_recursive_outputs repo order2 order2 ⟨[], [], []⟩ hnodup2
    entriesNonempty_nil h2
  simp only [pendingOutputs_empty_outs, List.map_nil, List.nil_append] at e1 e2
  rw [show (solveOnProducts repo order1).2 =
      (solve_recursive repo order1 order1 ⟨[], [], []⟩).2 from rfl,
    show (solveOnProducts repo order2).2 =
      (solve_recursive repo order2 order2 ⟨[], [], []⟩).2 from rfl, e1, e2]
  exact hperm

theorem claim_C9_amended_witness :
    ((["water", "electrolytes", "coolant"] : List String).Perm
        ["coolant", "water", "electrolytes"] ∧
      (["water", "electrolytes", "coolant"] : List String).Nodup ∧
      (solveOnProducts repo9 ["water", "electrolytes", "coolant"]).1 = true ∧
      (solveOnProducts repo9 ["coolant", "water", "electrolytes"]).1 = true) ∧
    ((solveOnProducts repo9 ["water", "electrolytes", "coolant"]).2.assignments.map
        (fun a => a.output)).Perm
      ((solveOnProducts repo9 ["coolant", "water", "electrolytes"]).2.assignments.map
        (fun a => a.output)) :=
  ⟨⟨by decide, by decide, by decide, by decide⟩,
    claim_C9_amended repo9 ["water", "electrolytes", "coolant"]
      ["coolant", "water", "electrolytes"] (by decide) (by decide)
      (by decide) (by decide)⟩
